import Mathlib

/-!
Formal model of the sparse Game-of-Life simulator in `src/main.rs` of the
`life-rust` repository, together with theorems settling the frozen claims
about its specification.

The embedding follows the source closely:
* i64 coordinates are modelled as `Int` together with the explicit saturating
  operations the source uses (`i64::saturating_add` / `i64::saturating_sub`).
  The plain i64 subtractions in `is_close_neighbor` and
  `update_new_life_counters` are modelled as exact `Int` subtraction: every
  call site passes a neighbor taken from the 5x5 survey box around the center,
  so the true difference lies in `[-2, 2]` and two's-complement wrap-around
  cannot occur there.
* the cell age and the world generation counter are `u32` in the source and
  are modelled as `Nat` whose increment wraps explicitly: `age += 1` becomes
  `(age + 1) % 2^32`, the two's-complement wrap of release builds (a debug
  build panics at the overflowing increment instead of completing it; either
  way the stored age does not keep growing past `2^32 - 1`, which is what
  matters for the `age == 0` skip branches).
* `BTreeMap<i64, _>` is modelled as an association list sorted strictly by
  key, with insertion / removal / range operations mirroring the `BTreeMap`
  API.  `BTreeMap::range` with two `Included` bounds is documented to panic
  when the lower bound exceeds the upper bound; that panic condition is
  modelled by a separate explicit predicate.
-/

set_option maxHeartbeats 1600000

namespace LifeRust

/-- Smallest `i64` value, `-2^63`. -/
def I64_MIN : Int := -9223372036854775808

/-- Largest `i64` value, `2^63 - 1`. -/
def I64_MAX : Int := 9223372036854775807

/-- `v` is representable as an `i64`. -/
def InRange (v : Int) : Prop := I64_MIN ≤ v ∧ v ≤ I64_MAX

instance (v : Int) : Decidable (InRange v) := by unfold InRange; infer_instance

/-- Clamp an integer into the `i64` range. -/
def clampI64 (v : Int) : Int := max I64_MIN (min I64_MAX v)

/-- Rust `i64::saturating_add`. -/
def satAdd (a b : Int) : Int := clampI64 (a + b)

/-- Rust `i64::saturating_sub`. -/
def satSub (a b : Int) : Int := clampI64 (a - b)

/-- Chebyshev (L-infinity) distance between two integer points. -/
def chebNat (p q : Int × Int) : Nat := max (p.1 - q.1).natAbs (p.2 - q.2).natAbs

/-- The `Life` struct of the source: a cell with coordinates and an age. -/
structure Life where
  x_pos : Int
  y_pos : Int
  age : Nat
deriving DecidableEq, Repr

/-- `Life::new`: a fresh cell of age 0. -/
def Life.new (x_pos y_pos : Int) : Life := { x_pos := x_pos, y_pos := y_pos, age := 0 }

/-- `Life::is_close_neighbor`: the other cell is within one step in both axes. -/
def Life.is_close_neighbor (self neighbor : Life) : Bool :=
  let dist_x := neighbor.x_pos - self.x_pos
  let dist_y := neighbor.y_pos - self.y_pos
  decide (dist_x ≥ -1 ∧ dist_x ≤ 1 ∧ dist_y ≥ -1 ∧ dist_y ≤ 1)

/-- `Life::calculate_neighbor_coordinates`: the eight saturating adjacent
positions, indexed 0..7 (NW, N, NE, W, E, SW, S, SE). -/
def Life.calculate_neighbor_coordinates (self : Life) (pos : Nat) : Option (Int × Int) :=
  match pos with
  | 0 => some (satSub self.x_pos 1, satAdd self.y_pos 1)
  | 1 => some (self.x_pos, satAdd self.y_pos 1)
  | 2 => some (satAdd self.x_pos 1, satAdd self.y_pos 1)
  | 3 => some (satSub self.x_pos 1, self.y_pos)
  | 4 => some (satAdd self.x_pos 1, self.y_pos)
  | 5 => some (satSub self.x_pos 1, satSub self.y_pos 1)
  | 6 => some (self.x_pos, satSub self.y_pos 1)
  | 7 => some (satAdd self.x_pos 1, satSub self.y_pos 1)
  | _ => none

/-- `impl TimeBasedEntity for Life`: aging a cell increments its `u32` age,
wrapping at `2^32` as the release build does. -/
def Life.tick (self : Life) : Life := { self with age := (self.age + 1) % 4294967296 }

/-- The relative offset of directional position `i` (0..7), matching
`calculate_neighbor_coordinates` before saturation. -/
def nbOffset (i : Nat) : Int × Int :=
  match i with
  | 0 => (-1, 1)
  | 1 => (0, 1)
  | 2 => (1, 1)
  | 3 => (-1, 0)
  | 4 => (1, 0)
  | 5 => (-1, -1)
  | 6 => (0, -1)
  | 7 => (1, -1)
  | _ => (0, 0)

/-- The `[u8; 8]` counter array of the survey loop, one field per directional
position 0..7. -/
structure Counters where
  c0 : Nat
  c1 : Nat
  c2 : Nat
  c3 : Nat
  c4 : Nat
  c5 : Nat
  c6 : Nat
  c7 : Nat
deriving DecidableEq, Repr

/-- Index into the counter array. -/
def Counters.get (cs : Counters) (i : Nat) : Nat :=
  match i with
  | 0 => cs.c0
  | 1 => cs.c1
  | 2 => cs.c2
  | 3 => cs.c3
  | 4 => cs.c4
  | 5 => cs.c5
  | 6 => cs.c6
  | 7 => cs.c7
  | _ => 0

/-- The `[1; 8]` initialisation of the counters ("account for self"). -/
def Counters.ones : Counters := ⟨1, 1, 1, 1, 1, 1, 1, 1⟩

/-- `update_new_life_counters` (src/main.rs, lines 249-305): the fixed lookup
table keyed by the relative offset `(dist_x, dist_y)` of the neighbor from the
center, bumping the directional counters that offset contributes to. -/
def update_new_life_counters (counters : Counters) (center neighbor : Life) : Counters :=
  let dist_x := neighbor.x_pos - center.x_pos
  let dist_y := neighbor.y_pos - center.y_pos
  if dist_y = 2 then
    if dist_x = -2 then { counters with c0 := counters.c0 + 1 }
    else if dist_x = -1 then { counters with c0 := counters.c0 + 1, c1 := counters.c1 + 1 }
    else if dist_x = 0 then
      { counters with c0 := counters.c0 + 1, c1 := counters.c1 + 1, c2 := counters.c2 + 1 }
    else if dist_x = 1 then { counters with c1 := counters.c1 + 1, c2 := counters.c2 + 1 }
    else if dist_x = 2 then { counters with c2 := counters.c2 + 1 }
    else counters
  else if dist_y = 1 then
    if dist_x = -2 then { counters with c0 := counters.c0 + 1, c3 := counters.c3 + 1 }
    else if dist_x = -1 then { counters with c1 := counters.c1 + 1, c3 := counters.c3 + 1 }
    else if dist_x = 0 then
      { counters with c0 := counters.c0 + 1, c2 := counters.c2 + 1, c3 := counters.c3 + 1,
                      c4 := counters.c4 + 1 }
    else if dist_x = 1 then { counters with c1 := counters.c1 + 1, c4 := counters.c4 + 1 }
    else if dist_x = 2 then { counters with c2 := counters.c2 + 1, c4 := counters.c4 + 1 }
    else counters
  else if dist_y = 0 then
    if dist_x = -2 then
      { counters with c0 := counters.c0 + 1, c3 := counters.c3 + 1, c5 := counters.c5 + 1 }
    else if dist_x = -1 then
      { counters with c0 := counters.c0 + 1, c1 := counters.c1 + 1, c5 := counters.c5 + 1,
                      c6 := counters.c6 + 1 }
    else if dist_x = 1 then
      { counters with c1 := counters.c1 + 1, c2 := counters.c2 + 1, c6 := counters.c6 + 1,
                      c7 := counters.c7 + 1 }
    else if dist_x = 2 then
      { counters with c2 := counters.c2 + 1, c4 := counters.c4 + 1, c7 := counters.c7 + 1 }
    else counters
  else if dist_y = -1 then
    if dist_x = -2 then { counters with c3 := counters.c3 + 1, c5 := counters.c5 + 1 }
    else if dist_x = -1 then { counters with c3 := counters.c3 + 1, c6 := counters.c6 + 1 }
    else if dist_x = 0 then
      { counters with c3 := counters.c3 + 1, c4 := counters.c4 + 1, c5 := counters.c5 + 1,
                      c7 := counters.c7 + 1 }
    else if dist_x = 1 then { counters with c4 := counters.c4 + 1, c6 := counters.c6 + 1 }
    else if dist_x = 2 then { counters with c4 := counters.c4 + 1, c7 := counters.c7 + 1 }
    else counters
  else if dist_y = -2 then
    if dist_x = -2 then { counters with c5 := counters.c5 + 1 }
    else if dist_x = -1 then { counters with c5 := counters.c5 + 1, c6 := counters.c6 + 1 }
    else if dist_x = 0 then
      { counters with c5 := counters.c5 + 1, c6 := counters.c6 + 1, c7 := counters.c7 + 1 }
    else if dist_x = 1 then { counters with c6 := counters.c6 + 1, c7 := counters.c7 + 1 }
    else if dist_x = 2 then { counters with c7 := counters.c7 + 1 }
    else counters
  else counters

/-! ### The sparse grid: `BTreeMap<i64, BTreeMap<i64, Life>>` as sorted association lists -/

/-- `BTreeMap::get`: lookup in a map modelled as an association list. -/
def btGet {β : Type} (m : List (Int × β)) (k : Int) : Option β :=
  match m with
  | [] => none
  | (k', v) :: rest => if k = k' then some v else btGet rest k

/-- `BTreeMap::contains_key`. -/
def btContains {β : Type} (m : List (Int × β)) (k : Int) : Bool := (btGet m k).isSome

/-- `BTreeMap::insert` on a key-sorted association list: replaces the value in
place when the key is present, otherwise inserts at the sorted position. -/
def btInsert {β : Type} (m : List (Int × β)) (k : Int) (v : β) : List (Int × β) :=
  match m with
  | [] => [(k, v)]
  | (k', v') :: rest =>
    if k < k' then (k, v) :: (k', v') :: rest
    else if k = k' then (k, v) :: rest
    else (k', v') :: btInsert rest k v

/-- `BTreeMap::remove` (returned value discarded, as in the source). -/
def btRemove {β : Type} (m : List (Int × β)) (k : Int) : List (Int × β) :=
  match m with
  | [] => []
  | (k', v') :: rest => if k = k' then rest else (k', v') :: btRemove rest k

/-- `BTreeMap::range((Included(lo), Included(hi)))`: the sub-list of entries
with keys in `[lo, hi]`, in map order.  This is the non-panicking behaviour;
see `btRangePanics` for the documented panic condition. -/
def btRange {β : Type} (m : List (Int × β)) (lo hi : Int) : List (Int × β) :=
  m.filter (fun e => decide (lo ≤ e.1 ∧ e.1 ≤ hi))

/-- `BTreeMap::range` with two `Included` bounds is documented to panic when
the range start exceeds the range end; this predicate records that condition
for one `range` call. -/
def btRangePanics (lo hi : Int) : Bool := decide (hi < lo)

/-- The `World` struct: the nested coordinate map (outer key `x`, inner key
`y`) and the generation counter.  The source wraps the map in an `RwLock`,
which is single-threaded state here. -/
structure World where
  map : List (Int × List (Int × Life))
  age : Nat
deriving DecidableEq, Repr

/-- `World::add_life`: insert keyed by the cell's own coordinates, only when
no cell is stored there yet (first-writer-wins, silent no-op on collision). -/
def World.add_life (w : World) (life : Life) : World :=
  { w with map :=
      match btGet w.map life.x_pos with
      | some y_map =>
          if btContains y_map life.y_pos then w.map
          else btInsert w.map life.x_pos (btInsert y_map life.y_pos life)
      | none => btInsert w.map life.x_pos [(life.y_pos, life)] }

/-- `World::remove_life`: delete the entry at the cell's coordinates if
present; the emptied inner map is kept, as in the source. -/
def World.remove_life (w : World) (life : Life) : World :=
  { w with map :=
      match btGet w.map life.x_pos with
      | some y_map =>
          if btContains y_map life.y_pos then btInsert w.map life.x_pos (btRemove y_map life.y_pos)
          else w.map
      | none => w.map }

/-- `World::spatial_query`: outer range over `[start_x, end_x]`, inner range
over `[end_y, start_y]` (note the swapped `y` arguments, as in the source),
collecting the stored cells in iteration order. -/
def World.spatial_query (w : World) (start_x start_y end_x end_y : Int) : List Life :=
  (btRange w.map start_x end_x).flatMap (fun xe => (btRange xe.2 end_y start_y).map Prod.snd)

/-- The condition under which `World::spatial_query` hits a panicking
`BTreeMap::range` call: the outer call panics when `start_x > end_x`, and an
inner call (made once per outer entry in range) panics when `end_y > start_y`. -/
def World.spatial_query_panics (w : World) (start_x start_y end_x end_y : Int) : Bool :=
  btRangePanics start_x end_x ||
    ((btRange w.map start_x end_x).any fun _ => btRangePanics end_y start_y)

/-- `World::query_around_point`: the saturating 5x5 box around `(x, y)`. -/
def World.query_around_point (w : World) (x y : Int) : List Life :=
  w.spatial_query (satSub x 2) (satAdd y 2) (satAdd x 2) (satSub y 2)

/-- One aging pass over every stored cell (the loop bodies of
`World::initialize` and of the final phase of `World::tick`). -/
def agePass (m : List (Int × List (Int × Life))) : List (Int × List (Int × Life)) :=
  m.map fun xe => (xe.1, xe.2.map fun ye => (ye.1, Life.tick ye.2))

/-- `World::initialize` (renamed `initAges` here): age every stored cell by 1
before the first tick. -/
def World.initAges (w : World) : World := { w with map := agePass w.map }

/-- All stored cells in iteration order (outer key ascending, then inner). -/
def allCells (m : List (Int × List (Int × Life))) : List Life :=
  m.flatMap fun xe => xe.2.map Prod.snd

/-- The neighbors a surveyed center processes: the 5x5 query result minus the
center's own position and minus age-0 newborns (the two `continue`s of the
survey loop). -/
def surveyNeighbors (w : World) (life : Life) : List Life :=
  (w.query_around_point life.x_pos life.y_pos).filter fun n =>
    !decide (life.x_pos = n.x_pos ∧ life.y_pos = n.y_pos) && !decide (n.age = 0)

/-- The center's `close_neighbor_count` accumulated by the survey loop. -/
def closeNeighborCount (w : World) (life : Life) : Nat :=
  (surveyNeighbors w life).countP fun n => life.is_close_neighbor n

/-- The counter array accumulated by the survey loop for one center, starting
from `[1; 8]`.  The source interleaves this fold with the close-neighbor
count over the same filtered traversal; the two accumulations are
independent, so they are written as two traversals here. -/
def lifeCounters (w : World) (life : Life) : Counters :=
  (surveyNeighbors w life).foldl (fun cs n => update_new_life_counters cs life n) Counters.ones

/-- The birth candidates one surveyed center nominates: the positions of the
directional counters that ended at exactly 3. -/
def birthCandidates (w : World) (life : Life) : List (Int × Int) :=
  (List.range 8).filterMap fun i =>
    if (lifeCounters w life).get i = 3 then life.calculate_neighbor_coordinates i else none

/-- The `kill_vec` of one tick: every surveyed cell (age nonzero) whose
close-neighbor count is neither 2 nor 3, in iteration order. -/
def surveyKill (w : World) : List Life :=
  (allCells w.map).filter fun l =>
    !decide (l.age = 0) &&
      !decide (closeNeighborCount w l = 2 ∨ closeNeighborCount w l = 3)

/-- The `new_life_set` of one tick: all birth candidates nominated by surveyed
cells.  The source collects them in a `HashSet`; the set is modelled as the
deduplicated list of candidates in survey order. -/
def surveyBirthSet (w : World) : List (Int × Int) :=
  ((allCells w.map).filter fun l => !decide (l.age = 0)).flatMap (birthCandidates w) |>.dedup

/-- The removal phase: apply `remove_life` to every cell of `kill_vec`. -/
def killPhase (w : World) : World :=
  (surveyKill w).foldl (fun acc l => acc.remove_life l) w

/-- The birth phase: `add_life` an age-0 cell at every position of the birth
set computed from the snapshot `w0`. -/
def birthPhase (w0 w : World) : World :=
  (surveyBirthSet w0).foldl (fun acc c => acc.add_life (Life.new c.1 c.2)) w

/-- The aging phase: age every cell now present, and step the world age. -/
def agingPhase (w : World) : World :=
  { map := agePass w.map, age := (w.age + 1) % 4294967296 }

/-- `impl TimeBasedEntity for World`: one generation.  Survey over the
unmodified map, then removals, then births, then the aging pass. -/
def World.tick (w : World) : World :=
  let kill_vec := surveyKill w
  let new_life_set := surveyBirthSet w
  let afterKill := kill_vec.foldl (fun acc l => acc.remove_life l) w
  let afterBirth := new_life_set.foldl (fun acc c => acc.add_life (Life.new c.1 c.2)) afterKill
  { map := agePass afterBirth.map, age := (afterBirth.age + 1) % 4294967296 }

/-- Look up the cell stored under keys `(x, y)`. -/
def World.getCell (w : World) (x y : Int) : Option Life :=
  (btGet w.map x).bind fun ym => btGet ym y

/-- The coordinate pairs of the stored cells, in enumeration order. -/
def cellCoords (w : World) : List (Int × Int) :=
  (allCells w.map).map fun l => (l.x_pos, l.y_pos)

/-! ### Invariants and spec-side definitions -/

/-- Keys strictly increasing, the structural invariant of a `BTreeMap`. -/
def keySorted {β : Type} (m : List (Int × β)) : Prop :=
  m.Pairwise fun a b => a.1 < b.1

instance {β : Type} (m : List (Int × β)) : Decidable (keySorted m) := by
  unfold keySorted; infer_instance

/-- Well-formedness of a world: both map levels are key-sorted (as a
`BTreeMap` is by construction), every stored cell's coordinates agree with the
keys it is stored under, and every coordinate is an `i64` value. -/
def WF (w : World) : Prop :=
  keySorted w.map ∧
  (∀ xe ∈ w.map, keySorted xe.2) ∧
  (∀ xe ∈ w.map, ∀ ye ∈ xe.2, ye.2.x_pos = xe.1 ∧ ye.2.y_pos = ye.1) ∧
  (∀ l ∈ allCells w.map, InRange l.x_pos ∧ InRange l.y_pos)

instance (w : World) : Decidable (WF w) := by unfold WF; infer_instance

/-- Every stored cell has age at least 1 (no newborns present). -/
def AllAlive (w : World) : Prop := ∀ l ∈ allCells w.map, l.age ≠ 0

instance (w : World) : Decidable (AllAlive w) := by unfold AllAlive; infer_instance

/-- Worlds reachable from the empty world by the public operations.  Cells
passed to `add_life` carry i64 coordinates, which is enforced by the Rust
types and is a side condition here. -/
inductive Reachable : World → Prop
  | empty : Reachable ⟨[], 0⟩
  | add {w : World} (l : Life) : Reachable w → InRange l.x_pos → InRange l.y_pos →
      Reachable (w.add_life l)
  | remove {w : World} (l : Life) : Reachable w → Reachable (w.remove_life l)
  | init {w : World} : Reachable w → Reachable w.initAges
  | tick {w : World} : Reachable w → Reachable w.tick

/-- Worlds at a tick boundary in the reference flow of `main`: seed cells
added to the empty world with `Life::new`, one `initialize` call, then any
number of ticks. -/
inductive RefReachable : World → Prop
  | seeded (seeds : List (Int × Int)) :
      (∀ s ∈ seeds, InRange s.1 ∧ InRange s.2) →
      RefReachable
        ((seeds.foldl (fun (w : World) c => w.add_life (Life.new c.1 c.2))
            (World.mk [] 0)).initAges)
  | tick {w : World} : RefReachable w → RefReachable w.tick

/-- The reference flow with its tick count made explicit: `RefTrace n w` holds
when `w` is the state after the seeds, one `initialize` call and exactly `n`
ticks.  The count is a meta-level natural number (the number of loop
iterations of `main`), not a piece of program state, so it is not subject to
the `u32` wrap of the world's own generation counter. -/
inductive RefTrace : Nat → World → Prop
  | seeded (seeds : List (Int × Int)) :
      (∀ s ∈ seeds, InRange s.1 ∧ InRange s.2) →
      RefTrace 0
        ((seeds.foldl (fun (w : World) c => w.add_life (Life.new c.1 c.2))
            (World.mk [] 0)).initAges)
  | tick {n : Nat} {w : World} : RefTrace n w → RefTrace (n + 1) w.tick

/-- Spec-side count for the survival rule: the number of cells other than the
center itself, of age at least 1, within Chebyshev distance 1 of the center. -/
def specCloseCount (w : World) (l : Life) : Nat :=
  (allCells w.map).countP fun c =>
    decide (¬ (c.x_pos = l.x_pos ∧ c.y_pos = l.y_pos) ∧ c.age ≠ 0 ∧
      chebNat (c.x_pos, c.y_pos) (l.x_pos, l.y_pos) ≤ 1)

/-- Spec-side count for a birth candidate: the number of age-at-least-1 cells
at Chebyshev distance exactly 1 from the position `p` (the candidate's own
occupant, at distance 0, is not its neighbor). -/
def specExactOneCount (w : World) (p : Int × Int) : Nat :=
  (allCells w.map).countP fun c =>
    decide (c.age ≠ 0 ∧ chebNat (c.x_pos, c.y_pos) p = 1)

/-- The count claim C1 literally asks about: age-at-least-1 cells within
Chebyshev distance 1 of `p`, distance 0 included. -/
def specWithinOneCount (w : World) (p : Int × Int) : Nat :=
  (allCells w.map).countP fun c =>
    decide (c.age ≠ 0 ∧ chebNat (c.x_pos, c.y_pos) p ≤ 1)

/-- The unique well-formed grid holding exactly a 2x2 block of cells at
`(a, b), (a, b+1), (a+1, b), (a+1, b+1)` with the given ages, together with a
world age `g`. -/
def blockWorld (a b : Int) (n1 n2 n3 n4 g : Nat) : World :=
  ⟨[(a, [(b, ⟨a, b, n1⟩), (b + 1, ⟨a, b + 1, n2⟩)]),
    (a + 1, [(b, ⟨a + 1, b, n3⟩), (b + 1, ⟨a + 1, b + 1, n4⟩)])], g⟩

/-- The horizontal blinker seeded as in the spec and initialised (all ages 1). -/
def blinkerW : World :=
  ((((World.mk [] 0).add_life (Life.new 0 0)).add_life (Life.new 1 0)).add_life
      (Life.new 2 0)).initAges

/-- A world with exactly one initialised cell at the origin. -/
def originW : World := ((World.mk [] 0).add_life (Life.new 0 0)).initAges

/-- A world with two horizontally adjacent initialised cells. -/
def pairW : World :=
  (((World.mk [] 0).add_life (Life.new 0 0)).add_life (Life.new 1 0)).initAges

/-! ### Theorems -/

set_option maxHeartbeats 12000000 in
/-- Key property of the lookup table: applying `update_new_life_counters` for a
neighbor bumps counter `i` by exactly 1 when the neighbor's offset from the
center is at Chebyshev distance 1 from the offset of directional position `i`,
and leaves it unchanged otherwise. -/
theorem update_new_life_counters_get (cs : Counters) (center neighbor : Life)
    (i : Nat) (hi : i < 8)
    (hne : ¬ (neighbor.x_pos = center.x_pos ∧ neighbor.y_pos = center.y_pos)) :
    (update_new_life_counters cs center neighbor).get i =
      cs.get i +
        (if chebNat (neighbor.x_pos - center.x_pos, neighbor.y_pos - center.y_pos)
            (nbOffset i) = 1 then 1 else 0) := by
  dsimp only [update_new_life_counters]
  have key : ∀ k : Int, k = 2 ∨ k = 1 ∨ k = 0 ∨ k = -1 ∨ k = -2 ∨
      (¬ k = 2 ∧ ¬ k = 1 ∧ ¬ k = 0 ∧ ¬ k = -1 ∧ ¬ k = -2) := by intro k; omega
  rcases key (neighbor.y_pos - center.y_pos) with h | h | h | h | h | ⟨h1, h2, h3, h4, h5⟩
  · simp only [h]
    norm_num
    interval_cases i <;> split_ifs <;> simp_all only [Counters.get, chebNat, nbOffset] <;> omega
  · simp only [h]
    norm_num
    interval_cases i <;> split_ifs <;> simp_all only [Counters.get, chebNat, nbOffset] <;> omega
  · simp only [h]
    norm_num
    interval_cases i <;> split_ifs <;> simp_all only [Counters.get, chebNat, nbOffset] <;> omega
  · simp only [h]
    norm_num
    interval_cases i <;> split_ifs <;> simp_all only [Counters.get, chebNat, nbOffset] <;> omega
  · simp only [h]
    norm_num
    interval_cases i <;> split_ifs <;> simp_all only [Counters.get, chebNat, nbOffset] <;> omega
  · rw [if_neg h1, if_neg h2, if_neg h3, if_neg h4, if_neg h5]
    interval_cases i <;> split_ifs <;> simp_all only [Counters.get, chebNat, nbOffset] <;> omega

theorem btGet_eq_none {β : Type} {m : List (Int × β)} {k : Int}
    (h : ∀ e ∈ m, e.1 ≠ k) : btGet m k = none := by
  induction m with
  | nil => rfl
  | cons e rest ih =>
    obtain ⟨k', v'⟩ := e
    have hk : k ≠ k' := fun hh => h (k', v') (by simp) (by simp [hh])
    simp only [btGet, if_neg hk]
    exact ih fun e he => h e (by simp [he])

theorem btGet_insert_self {β : Type} (m : List (Int × β)) (k : Int) (v : β) :
    btGet (btInsert m k v) k = some v := by
  induction m with
  | nil => simp [btInsert, btGet]
  | cons e rest ih =>
    obtain ⟨ka, va⟩ := e
    by_cases h1 : k < ka
    · simp [btInsert, h1, btGet]
    · by_cases h2 : k = ka
      · simp [btInsert, h1, h2, btGet]
      · simp [btInsert, h1, h2, btGet, ih]

theorem btGet_insert_ne {β : Type} (m : List (Int × β)) {k k' : Int} (v : β) (h : k' ≠ k) :
    btGet (btInsert m k v) k' = btGet m k' := by
  induction m with
  | nil => simp [btInsert, btGet, h]
  | cons e rest ih =>
    obtain ⟨ka, va⟩ := e
    by_cases h1 : k < ka
    · simp [btInsert, h1, btGet, h]
    · by_cases h2 : k = ka
      · subst h2; simp [btInsert, h1, btGet, h]
      · simp [btInsert, h1, h2, btGet, ih]

theorem mem_btInsert {β : Type} {m : List (Int × β)} {k : Int} {v : β} {e : Int × β}
    (h : e ∈ btInsert m k v) : e ∈ m ∨ e = (k, v) := by
  induction m with
  | nil =>
    simp [btInsert] at h
    exact Or.inr h
  | cons a rest ih =>
    obtain ⟨ka, va⟩ := a
    simp only [btInsert] at h
    by_cases h1 : k < ka
    · rw [if_pos h1] at h
      simp only [List.mem_cons] at h
      simp only [List.mem_cons]
      tauto
    · by_cases h2 : k = ka
      · rw [if_neg h1, if_pos h2] at h
        simp only [List.mem_cons] at h
        simp only [List.mem_cons]
        tauto
      · rw [if_neg h1, if_neg h2] at h
        simp only [List.mem_cons] at h
        simp only [List.mem_cons]
        rcases h with h | h
        · tauto
        · rcases ih h with h | h <;> tauto

theorem btInsert_sorted {β : Type} {m : List (Int × β)} (k : Int) (v : β) :
    keySorted m → keySorted (btInsert m k v) := by
  induction m with
  | nil => intro _; simp [btInsert, keySorted]
  | cons a rest ih =>
    intro hs
    obtain ⟨ka, va⟩ := a
    rw [keySorted, List.pairwise_cons] at hs
    obtain ⟨ha, hrest⟩ := hs
    by_cases h1 : k < ka
    · simp only [btInsert]
      rw [if_pos h1]
      refine List.Pairwise.cons ?_ (List.Pairwise.cons ha hrest)
      intro e he
      rcases List.mem_cons.mp he with h | h
      · subst h; exact h1
      · exact lt_trans h1 (ha e h)
    · by_cases h2 : k = ka
      · simp only [btInsert]
        rw [if_neg h1, if_pos h2]
        refine List.Pairwise.cons ?_ hrest
        intro e he
        have := ha e he
        omega
      · simp only [btInsert]
        rw [if_neg h1, if_neg h2]
        refine List.Pairwise.cons ?_ (ih hrest)
        intro e he
        rcases mem_btInsert he with h | h
        · exact ha e h
        · subst h
          have hlt : ka < k := by omega
          exact hlt

theorem btRemove_sublist {β : Type} (m : List (Int × β)) (k : Int) :
    (btRemove m k).Sublist m := by
  induction m with
  | nil => simp [btRemove]
  | cons a rest ih =>
    obtain ⟨ka, va⟩ := a
    by_cases h : k = ka
    · simp only [btRemove, if_pos h]
      exact List.sublist_cons_self (ka, va) rest
    · simp only [btRemove, if_neg h]
      exact ih.cons₂ (ka, va)

theorem btRemove_sorted {β : Type} {m : List (Int × β)} (k : Int) (hs : keySorted m) :
    keySorted (btRemove m k) := hs.sublist (btRemove_sublist m k)

theorem btGet_remove_self {β : Type} {m : List (Int × β)} (k : Int) (hs : keySorted m) :
    btGet (btRemove m k) k = none := by
  induction m with
  | nil => rfl
  | cons a rest ih =>
    obtain ⟨ka, va⟩ := a
    rw [keySorted, List.pairwise_cons] at hs
    obtain ⟨ha, hrest⟩ := hs
    by_cases h : k = ka
    · subst h
      simp only [btRemove, if_pos rfl]
      exact btGet_eq_none fun e he => by
        have := ha e he
        omega
    · simp only [btRemove, if_neg h, btGet, if_neg h]
      exact ih hrest

theorem btGet_remove_ne {β : Type} (m : List (Int × β)) {k k' : Int} (h : k' ≠ k) :
    btGet (btRemove m k) k' = btGet m k' := by
  induction m with
  | nil => rfl
  | cons a rest ih =>
    obtain ⟨ka, va⟩ := a
    by_cases h1 : k = ka
    · subst h1
      simp only [btRemove, if_pos rfl, ite_true, btGet, if_neg h]
    · by_cases h2 : k' = ka
      · simp only [btRemove, if_neg h1, btGet, if_pos h2]
      · simp only [btRemove, if_neg h1, btGet, if_neg h2]
        exact ih

theorem btGet_mem {β : Type} {m : List (Int × β)} {k : Int} {v : β}
    (h : btGet m k = some v) : (k, v) ∈ m := by
  induction m with
  | nil => simp [btGet] at h
  | cons a rest ih =>
    obtain ⟨ka, va⟩ := a
    by_cases h1 : k = ka
    · subst h1
      simp only [btGet, if_pos rfl, ite_true, Option.some.injEq] at h
      rw [← h]
      exact List.mem_cons_self _ _
    · simp only [btGet, if_neg h1] at h
      exact List.mem_cons_of_mem _ (ih h)

theorem btGet_of_mem {β : Type} {m : List (Int × β)} {k : Int} {v : β}
    (hs : keySorted m) (h : (k, v) ∈ m) : btGet m k = some v := by
  induction m with
  | nil => simp at h
  | cons a rest ih =>
    obtain ⟨ka, va⟩ := a
    rw [keySorted, List.pairwise_cons] at hs
    obtain ⟨ha, hrest⟩ := hs
    rcases List.mem_cons.mp h with h | h
    · rw [Prod.mk.injEq] at h
      obtain ⟨hk, hv⟩ := h
      subst hk
      subst hv
      simp [btGet]
    · have hne : k ≠ ka := by
        have := ha _ h
        omega
      simp only [btGet, if_neg hne]
      exact ih hrest h

theorem Counters.ones_get {i : Nat} (hi : i < 8) : Counters.ones.get i = 1 := by
  interval_cases i <;> rfl

theorem clampI64_mem : ∀ v : Int, InRange (clampI64 v) := by
  intro v
  unfold InRange clampI64 I64_MIN I64_MAX
  omega

theorem clampI64_of_mem {v : Int} (h : InRange v) : clampI64 v = v := by
  unfold InRange at h
  unfold clampI64 I64_MIN I64_MAX at *
  omega

theorem calc_coords_eq (l : Life) {i : Nat} (hi : i < 8)
    (hx : InRange l.x_pos) (hy : InRange l.y_pos) :
    l.calculate_neighbor_coordinates i =
      some (clampI64 (l.x_pos + (nbOffset i).1), clampI64 (l.y_pos + (nbOffset i).2)) := by
  unfold InRange I64_MIN I64_MAX at hx hy
  interval_cases i <;>
    simp [Life.calculate_neighbor_coordinates, nbOffset, satAdd, satSub, clampI64,
      I64_MIN, I64_MAX, Prod.ext_iff] <;>
    omega

theorem btGet_mapVal {β γ : Type} (f : β → γ) (m : List (Int × β)) (k : Int) :
    btGet (m.map fun e => (e.1, f e.2)) k = (btGet m k).map f := by
  induction m with
  | nil => rfl
  | cons e rest ih =>
    obtain ⟨ka, va⟩ := e
    by_cases h : k = ka
    · simp [btGet, h]
    · simp [btGet, h, ih]

theorem add_life_of_present {w : World} {l c : Life}
    (h : w.getCell l.x_pos l.y_pos = some c) : w.add_life l = w := by
  unfold World.getCell at h
  unfold World.add_life
  rcases hg : btGet w.map l.x_pos with _ | ym
  · rw [hg] at h
    simp at h
  · rw [hg] at h
    simp only [Option.some_bind] at h
    have hb : btContains ym l.y_pos = true := by unfold btContains; rw [h]; rfl
    simp only [hg, hb, if_true]

theorem getCell_add_life_self (w : World) (l : Life) :
    (w.add_life l).getCell l.x_pos l.y_pos = some ((w.getCell l.x_pos l.y_pos).getD l) := by
  unfold World.add_life World.getCell
  rcases hg : btGet w.map l.x_pos with _ | ym
  · simp only [hg, btGet_insert_self, Option.some_bind, Option.none_bind, Option.getD_none]
    simp only [btGet, if_pos rfl, ite_true]
  · rcases hc : btGet ym l.y_pos with _ | c
    · have hb : btContains ym l.y_pos = false := by unfold btContains; rw [hc]; rfl
      simp only [hg, hb, Bool.false_eq_true, if_false, btGet_insert_self, Option.some_bind,
        hc, Option.getD_none]
    · have hb : btContains ym l.y_pos = true := by unfold btContains; rw [hc]; rfl
      simp only [hg, hb, if_true, Option.some_bind, hc, Option.getD_some]

theorem getCell_add_life_other (w : World) (l : Life) (x y : Int)
    (h : ¬ (l.x_pos = x ∧ l.y_pos = y)) :
    (w.add_life l).getCell x y = w.getCell x y := by
  unfold World.add_life World.getCell
  by_cases hx : l.x_pos = x
  · have hy : y ≠ l.y_pos := fun hh => h ⟨hx, hh.symm⟩
    rcases hg : btGet w.map l.x_pos with _ | ym
    · rw [← hx, btGet_insert_self, hg]
      simp only [Option.some_bind, Option.none_bind, btGet, if_neg hy]
    · rcases hc : btContains ym l.y_pos with _ | _
      · simp only [hc, Bool.false_eq_true, if_false]
        rw [← hx, btGet_insert_self, hg]
        simp only [Option.some_bind]
        exact btGet_insert_ne _ _ hy
      · simp only [hc, if_true]
  · have hx' : x ≠ l.x_pos := fun hh => hx hh.symm
    rcases hg : btGet w.map l.x_pos with _ | ym
    · rw [btGet_insert_ne _ _ hx']
    · rcases hc : btContains ym l.y_pos with _ | _
      · simp only [hc, Bool.false_eq_true, if_false]
        rw [btGet_insert_ne _ _ hx']
      · simp only [hc, if_true]

theorem getCell_remove_life (w : World) (l : Life) (x y : Int)
    (hs2 : ∀ xe ∈ w.map, keySorted xe.2) :
    (w.remove_life l).getCell x y =
      if l.x_pos = x ∧ l.y_pos = y then none else w.getCell x y := by
  unfold World.remove_life World.getCell
  by_cases hx : l.x_pos = x
  · by_cases hy : l.y_pos = y
    · rw [if_pos ⟨hx, hy⟩]
      rcases hg : btGet w.map l.x_pos with _ | ym
      · rw [← hx, hg]
        rfl
      · rcases hc : btContains ym l.y_pos with _ | _
        · simp only [hc, Bool.false_eq_true, if_false]
          rw [← hx, hg, ← hy]
          simp only [Option.some_bind]
          unfold btContains at hc
          rcases hcc : btGet ym l.y_pos with _ | c
          · rfl
          · rw [hcc] at hc; simp at hc
        · simp only [hc, if_true]
          rw [← hx, btGet_insert_self, ← hy]
          simp only [Option.some_bind]
          exact btGet_remove_self l.y_pos (hs2 _ (btGet_mem hg))
    · have hy' : y ≠ l.y_pos := fun hh => hy hh.symm
      rw [if_neg (fun hh => hy hh.2)]
      rcases hg : btGet w.map l.x_pos with _ | ym
      · rfl
      · rcases hc : btContains ym l.y_pos with _ | _
        · simp only [hc, Bool.false_eq_true, if_false]
        · simp only [hc, if_true]
          rw [← hx, btGet_insert_self, hg]
          simp only [Option.some_bind]
          exact btGet_remove_ne _ hy'
  · have hx' : x ≠ l.x_pos := fun hh => hx hh.symm
    rw [if_neg (fun hh => hx hh.1)]
    rcases hg : btGet w.map l.x_pos with _ | ym
    · rfl
    · rcases hc : btContains ym l.y_pos with _ | _
      · simp only [hc, Bool.false_eq_true, if_false]
      · simp only [hc, if_true]
        rw [btGet_insert_ne _ _ hx']

theorem getCell_agingPhase (w : World) (x y : Int) :
    (agingPhase w).getCell x y = (w.getCell x y).map Life.tick := by
  unfold agingPhase World.getCell agePass
  rw [btGet_mapVal]
  rcases btGet w.map x with _ | ym
  · rfl
  · simp only [Option.map_some', Option.some_bind]
    rw [btGet_mapVal]

theorem mem_allCells {m : List (Int × List (Int × Life))} {l : Life} :
    l ∈ allCells m ↔ ∃ xe ∈ m, ∃ ye ∈ xe.2, ye.2 = l := by
  unfold allCells
  simp [List.mem_flatMap, List.mem_map]

theorem allCells_cons (xe : Int × List (Int × Life)) (rest : List (Int × List (Int × Life))) :
    allCells (xe :: rest) = xe.2.map Prod.snd ++ allCells rest := by
  unfold allCells
  rw [List.flatMap_cons]

theorem inner_query_eq (xk sx sy ex ey : Int) (ym : List (Int × Life))
    (hx : sx ≤ xk ∧ xk ≤ ex) :
    (∀ ye ∈ ym, ye.2.x_pos = xk ∧ ye.2.y_pos = ye.1) →
    (btRange ym ey sy).map Prod.snd =
      (ym.map Prod.snd).filter fun l =>
        decide (sx ≤ l.x_pos ∧ l.x_pos ≤ ex ∧ ey ≤ l.y_pos ∧ l.y_pos ≤ sy) := by
  induction ym with
  | nil => intro _; rfl
  | cons ye rest ih =>
    intro hcoh
    obtain ⟨yk, lf⟩ := ye
    obtain ⟨hcx, hcy⟩ := hcoh (yk, lf) (List.mem_cons_self _ _)
    replace hcx : lf.x_pos = xk := hcx
    replace hcy : lf.y_pos = yk := hcy
    have ihr := ih fun e he => hcoh e (List.mem_cons_of_mem _ he)
    unfold btRange at *
    rw [List.filter_cons, List.map_cons, List.filter_cons]
    simp only [hcx, hcy, decide_eq_true_eq]
    by_cases hcond : ey ≤ yk ∧ yk ≤ sy
    · rw [if_pos hcond, if_pos ⟨hx.1, hx.2, hcond.1, hcond.2⟩, List.map_cons, ihr]
    · rw [if_neg hcond, if_neg (fun hh => hcond ⟨hh.2.2.1, hh.2.2.2⟩)]
      exact ihr

theorem spatial_query_eq_filter (m : List (Int × List (Int × Life))) (g : Nat)
    (sx sy ex ey : Int) :
    (∀ xe ∈ m, ∀ ye ∈ xe.2, ye.2.x_pos = xe.1 ∧ ye.2.y_pos = ye.1) →
    (World.mk m g).spatial_query sx sy ex ey =
      (allCells m).filter fun l =>
        decide (sx ≤ l.x_pos ∧ l.x_pos ≤ ex ∧ ey ≤ l.y_pos ∧ l.y_pos ≤ sy) := by
  induction m with
  | nil => intro _; rfl
  | cons xe rest ih =>
    intro hcoh
    obtain ⟨xk, ym⟩ := xe
    have hcoh0 := hcoh (xk, ym) (List.mem_cons_self _ _)
    have ihr := ih fun e he => hcoh e (List.mem_cons_of_mem _ he)
    unfold World.spatial_query at *
    rw [allCells_cons, List.filter_append]
    unfold btRange at *
    rw [List.filter_cons]
    by_cases hxc : sx ≤ xk ∧ xk ≤ ex
    · rw [if_pos (by simpa using hxc), List.flatMap_cons, ihr]
      have := inner_query_eq xk sx sy ex ey ym hxc hcoh0
      unfold btRange at this
      rw [this]
    · rw [if_neg (by simpa using hxc)]
      have hnil : (ym.map Prod.snd).filter (fun l =>
          decide (sx ≤ l.x_pos ∧ l.x_pos ≤ ex ∧ ey ≤ l.y_pos ∧ l.y_pos ≤ sy)) = [] := by
        rw [List.filter_eq_nil_iff]
        intro a ha
        rw [List.mem_map] at ha
        obtain ⟨ye, hye, hsnd⟩ := ha
        obtain ⟨hcx, hcy⟩ := hcoh0 ye hye
        simp only [← hsnd, hcx, decide_eq_true_eq]
        intro hh
        exact hxc ⟨hh.1, hh.2.1⟩
      rw [hnil, ihr]
      rfl

theorem nbOffset_facts {i : Nat} (hi : i < 8) :
    -1 ≤ (nbOffset i).1 ∧ (nbOffset i).1 ≤ 1 ∧ -1 ≤ (nbOffset i).2 ∧ (nbOffset i).2 ≤ 1 ∧
      max (nbOffset i).1.natAbs (nbOffset i).2.natAbs = 1 := by
  interval_cases i <;> decide

theorem foldl_update_get (c : Life) (ns : List Life) (cs : Counters) (i : Nat) (hi : i < 8)
    (hC : ∀ n ∈ ns, ¬ (n.x_pos = c.x_pos ∧ n.y_pos = c.y_pos)) :
    (ns.foldl (fun a n => update_new_life_counters a c n) cs).get i =
      cs.get i + ns.countP fun n =>
        decide (chebNat (n.x_pos - c.x_pos, n.y_pos - c.y_pos) (nbOffset i) = 1) := by
  induction ns generalizing cs with
  | nil => simp
  | cons n rest ih =>
    rw [List.foldl_cons, List.countP_cons,
      ih (update_new_life_counters cs c n) (fun e he => hC e (List.mem_cons_of_mem _ he)),
      update_new_life_counters_get cs c n i hi (hC n (List.mem_cons_self _ _))]
    by_cases hd : chebNat (n.x_pos - c.x_pos, n.y_pos - c.y_pos) (nbOffset i) = 1 <;>
      simp [hd] <;> omega

theorem countP_split {α : Type} (p q : α → Bool) (l : List α) :
    l.countP p = l.countP (fun a => p a && q a) + l.countP (fun a => p a && !q a) := by
  induction l with
  | nil => rfl
  | cons a rest ih =>
    simp only [List.countP_cons, ih]
    rcases hp : p a <;> rcases hq : q a <;> simp [hp, hq] <;> omega

theorem inner_countP_pos (xk x y : Int) (ym : List (Int × Life)) (hs : keySorted ym)
    (hcoh : ∀ ye ∈ ym, ye.2.x_pos = xk ∧ ye.2.y_pos = ye.1) :
    (ym.map Prod.snd).countP (fun c => decide (c.x_pos = x ∧ c.y_pos = y)) =
      if xk = x ∧ (btGet ym y).isSome then 1 else 0 := by
  induction ym with
  | nil => simp [btGet]
  | cons ye rest ih =>
    obtain ⟨yk, lf⟩ := ye
    obtain ⟨hcx, hcy⟩ := hcoh (yk, lf) (List.mem_cons_self _ _)
    replace hcx : lf.x_pos = xk := hcx
    replace hcy : lf.y_pos = yk := hcy
    rw [keySorted, List.pairwise_cons] at hs
    obtain ⟨ha, hrest⟩ := hs
    have ihr := ih hrest fun e he => hcoh e (List.mem_cons_of_mem _ he)
    rw [List.map_cons, List.countP_cons, ihr]
    by_cases hyk : y = yk
    · have hnone : btGet rest y = none := btGet_eq_none fun e he => by
        have := ha e he
        omega
      simp only [btGet, if_pos hyk, hnone, Option.isSome_some, Option.isSome_none,
        and_false, if_false, hcx, hcy, ← hyk]
      by_cases hxk : xk = x
      · simp [hxk]
      · simp [hxk, fun hh : x = xk => hxk hh.symm]
    · simp only [btGet, if_neg hyk, hcx, hcy]
      have : ¬ (xk = x ∧ yk = y) → (decide (xk = x ∧ yk = y) = false) := by
        intro hh
        simpa using hh
      by_cases hcomb : xk = x ∧ yk = y
      · exact absurd hcomb.2 (fun hh => hyk hh.symm)
      · rw [this hcomb]
        simp

theorem countP_pos_getCell (g : Nat) (x y : Int) (m : List (Int × List (Int × Life)))
    (hs1 : keySorted m) (hs2 : ∀ xe ∈ m, keySorted xe.2)
    (hcoh : ∀ xe ∈ m, ∀ ye ∈ xe.2, ye.2.x_pos = xe.1 ∧ ye.2.y_pos = ye.1) :
    (allCells m).countP (fun c => decide (c.x_pos = x ∧ c.y_pos = y)) =
      if ((World.mk m g).getCell x y).isSome then 1 else 0 := by
  induction m with
  | nil => simp [World.getCell, btGet, allCells]
  | cons xe rest ih =>
    obtain ⟨xk, ym⟩ := xe
    have hcoh0 : ∀ ye ∈ ym, ye.2.x_pos = xk ∧ ye.2.y_pos = ye.1 :=
      fun ye hye => hcoh (xk, ym) (List.mem_cons_self _ _) ye hye
    rw [keySorted, List.pairwise_cons] at hs1
    obtain ⟨ha, hrest⟩ := hs1
    have ihr := ih hrest (fun e he => hs2 e (List.mem_cons_of_mem _ he))
      (fun e he => hcoh e (List.mem_cons_of_mem _ he))
    rw [allCells_cons, List.countP_append, ihr,
      inner_countP_pos xk x y ym (hs2 (xk, ym) (List.mem_cons_self _ _)) hcoh0]
    unfold World.getCell at *
    by_cases hxk : x = xk
    · have hnone : btGet rest x = none := btGet_eq_none fun e he => by
        have := ha e he
        omega
      rw [hnone] at *
      simp only [btGet, if_pos hxk, Option.none_bind, Option.isSome_none, if_false,
        Option.some_bind, hxk]
      try simp
    · simp only [btGet, if_neg hxk]
      have : ¬ (xk = x ∧ (btGet ym y).isSome) := fun hh => hxk hh.1.symm
      rw [if_neg this]
      omega

theorem mem_surveyKill {w : World} {l : Life} :
    l ∈ surveyKill w ↔ l ∈ allCells w.map ∧ l.age ≠ 0 ∧
      ¬ (closeNeighborCount w l = 2 ∨ closeNeighborCount w l = 3) := by
  unfold surveyKill
  rw [List.mem_filter]
  simp only [Bool.and_eq_true, Bool.not_eq_true', decide_eq_false_iff_not]
  try tauto

theorem mem_surveyBirthSet {w : World} {p : Int × Int} :
    p ∈ surveyBirthSet w ↔ ∃ l ∈ allCells w.map, l.age ≠ 0 ∧
      ∃ i, i < 8 ∧ (lifeCounters w l).get i = 3 ∧
        l.calculate_neighbor_coordinates i = some p := by
  unfold surveyBirthSet birthCandidates
  rw [List.mem_dedup, List.mem_flatMap]
  constructor
  · rintro ⟨l, hl, hp⟩
    rw [List.mem_filter] at hl
    rw [List.mem_filterMap] at hp
    obtain ⟨i, hi, hp⟩ := hp
    rw [List.mem_range] at hi
    refine ⟨l, hl.1, by simpa using hl.2, i, hi, ?_⟩
    by_cases h3 : (lifeCounters w l).get i = 3
    · rw [if_pos h3] at hp
      exact ⟨h3, hp⟩
    · rw [if_neg h3] at hp
      simp at hp
  · rintro ⟨l, hl, hage, i, hi, h3, hp⟩
    refine ⟨l, ?_, ?_⟩
    · rw [List.mem_filter]
      exact ⟨hl, by simpa using hage⟩
    · rw [List.mem_filterMap]
      exact ⟨i, by simpa using hi, by rw [if_pos h3]; exact hp⟩

theorem getCell_mem_allCells {w : World} {x y : Int} {c : Life}
    (h : w.getCell x y = some c) : c ∈ allCells w.map := by
  unfold World.getCell at h
  rcases hg : btGet w.map x with _ | ym
  · rw [hg] at h; simp at h
  · rw [hg, Option.some_bind] at h
    exact mem_allCells.mpr ⟨(x, ym), btGet_mem hg, (y, c), btGet_mem h, rfl⟩

theorem getCell_coords {w : World}
    (hcoh : ∀ xe ∈ w.map, ∀ ye ∈ xe.2, ye.2.x_pos = xe.1 ∧ ye.2.y_pos = ye.1)
    {x y : Int} {c : Life} (h : w.getCell x y = some c) :
    c.x_pos = x ∧ c.y_pos = y := by
  unfold World.getCell at h
  rcases hg : btGet w.map x with _ | ym
  · rw [hg] at h; simp at h
  · rw [hg, Option.some_bind] at h
    exact hcoh (x, ym) (btGet_mem hg) (y, c) (btGet_mem h)

theorem getCell_of_mem_allCells {w : World} (hs1 : keySorted w.map)
    (hs2 : ∀ xe ∈ w.map, keySorted xe.2)
    (hcoh : ∀ xe ∈ w.map, ∀ ye ∈ xe.2, ye.2.x_pos = xe.1 ∧ ye.2.y_pos = ye.1)
    {l : Life} (hl : l ∈ allCells w.map) :
    w.getCell l.x_pos l.y_pos = some l := by
  rw [mem_allCells] at hl
  obtain ⟨xe, hxe, ye, hye, rfl⟩ := hl
  obtain ⟨hcx, hcy⟩ := hcoh xe hxe ye hye
  unfold World.getCell
  rw [hcx, hcy, btGet_of_mem hs1 hxe, Option.some_bind]
  exact btGet_of_mem (hs2 xe hxe) hye

theorem surveyNeighbors_eq_filter (w : World)
    (hcoh : ∀ xe ∈ w.map, ∀ ye ∈ xe.2, ye.2.x_pos = xe.1 ∧ ye.2.y_pos = ye.1) (l : Life) :
    surveyNeighbors w l =
      ((allCells w.map).filter fun n =>
        decide (satSub l.x_pos 2 ≤ n.x_pos ∧ n.x_pos ≤ satAdd l.x_pos 2 ∧
          satSub l.y_pos 2 ≤ n.y_pos ∧ n.y_pos ≤ satAdd l.y_pos 2)).filter fun n =>
        !decide (l.x_pos = n.x_pos ∧ l.y_pos = n.y_pos) && !decide (n.age = 0) := by
  unfold surveyNeighbors World.query_around_point
  obtain ⟨m, g⟩ := w
  rw [spatial_query_eq_filter m g _ _ _ _ hcoh]

theorem filter_samepos_getCell (g : Nat) (x y : Int) (m : List (Int × List (Int × Life)))
    (hs1 : keySorted m) (hs2 : ∀ xe ∈ m, keySorted xe.2)
    (hcoh : ∀ xe ∈ m, ∀ ye ∈ xe.2, ye.2.x_pos = xe.1 ∧ ye.2.y_pos = ye.1) (c : Life)
    (hget : (World.mk m g).getCell x y = some c) :
    (allCells m).filter (fun e => decide (e.x_pos = x ∧ e.y_pos = y)) = [c] := by
  have hcount := countP_pos_getCell g x y m hs1 hs2 hcoh
  rw [hget] at hcount
  simp only [Option.isSome_some, if_true] at hcount
  rw [List.countP_eq_length_filter] at hcount
  have hcd : c.x_pos = x ∧ c.y_pos = y := getCell_coords hcoh hget
  have hc_mem : c ∈ (allCells m).filter (fun e => decide (e.x_pos = x ∧ e.y_pos = y)) := by
    rw [List.mem_filter]
    exact ⟨getCell_mem_allCells hget, by simpa using hcd⟩
  obtain ⟨a, ha⟩ := List.length_eq_one.mp hcount
  rw [ha] at hc_mem ⊢
  simp only [List.mem_singleton] at hc_mem
  rw [hc_mem]

theorem closeNeighborCount_eq (w : World) (l : Life) (hWF : WF w)
    (hl : l ∈ allCells w.map) :
    closeNeighborCount w l = specCloseCount w l := by
  obtain ⟨hs1, hs2, hcoh, hbounds⟩ := hWF
  unfold closeNeighborCount specCloseCount
  rw [surveyNeighbors_eq_filter w hcoh l, List.countP_filter, List.countP_filter]
  apply List.countP_congr
  intro c hc
  obtain ⟨hcx, hcy⟩ := hbounds c hc
  obtain ⟨hlx, hly⟩ := hbounds l hl
  unfold InRange I64_MIN I64_MAX at hcx hcy hlx hly
  dsimp only [Life.is_close_neighbor]
  simp only [Bool.and_eq_true, Bool.not_eq_true', decide_eq_true_eq,
    decide_eq_false_iff_not, chebNat, satAdd, satSub, clampI64, I64_MIN, I64_MAX]
  omega

theorem lifeCounters_get_eq (w : World) (l : Life) {i : Nat} (hi : i < 8)
    (hWF : WF w) (hl : l ∈ allCells w.map) (hage : l.age ≠ 0)
    (hpx : InRange (l.x_pos + (nbOffset i).1)) (hpy : InRange (l.y_pos + (nbOffset i).2)) :
    (lifeCounters w l).get i =
      specExactOneCount w (l.x_pos + (nbOffset i).1, l.y_pos + (nbOffset i).2) := by
  obtain ⟨hs1, hs2, hcoh, hbounds⟩ := hWF
  obtain ⟨ho1, ho2, ho3, ho4, ho5⟩ := nbOffset_facts hi
  unfold lifeCounters specExactOneCount
  rw [surveyNeighbors_eq_filter w hcoh l]
  have hC : ∀ n ∈ ((allCells w.map).filter fun n =>
        decide (satSub l.x_pos 2 ≤ n.x_pos ∧ n.x_pos ≤ satAdd l.x_pos 2 ∧
          satSub l.y_pos 2 ≤ n.y_pos ∧ n.y_pos ≤ satAdd l.y_pos 2)).filter (fun n =>
        !decide (l.x_pos = n.x_pos ∧ l.y_pos = n.y_pos) && !decide (n.age = 0)),
      ¬ (n.x_pos = l.x_pos ∧ n.y_pos = l.y_pos) := by
    intro n hn
    rw [List.mem_filter] at hn
    have hskip := hn.2
    simp only [Bool.and_eq_true, Bool.not_eq_true', decide_eq_false_iff_not] at hskip
    exact fun hh => hskip.1 ⟨hh.1.symm, hh.2.symm⟩
  rw [foldl_update_get l _ Counters.ones i hi hC, Counters.ones_get hi,
    List.countP_filter, List.countP_filter]
  rw [countP_split
    (fun c => decide (c.age ≠ 0 ∧
      chebNat (c.x_pos, c.y_pos) (l.x_pos + (nbOffset i).1, l.y_pos + (nbOffset i).2) = 1))
    (fun c => decide (c.x_pos = l.x_pos ∧ c.y_pos = l.y_pos)) (allCells w.map)]
  have hself : (allCells w.map).countP (fun c =>
      decide (c.age ≠ 0 ∧
        chebNat (c.x_pos, c.y_pos) (l.x_pos + (nbOffset i).1, l.y_pos + (nbOffset i).2) = 1) &&
      decide (c.x_pos = l.x_pos ∧ c.y_pos = l.y_pos)) = 1 := by
    rw [← List.countP_filter]
    rw [filter_samepos_getCell w.age l.x_pos l.y_pos w.map hs1 hs2 hcoh l
      (getCell_of_mem_allCells hs1 hs2 hcoh hl)]
    simp only [List.countP_cons, List.countP_nil, decide_eq_true_eq, chebNat]
    rw [if_pos ⟨hage, by omega⟩]
  have hother : (allCells w.map).countP (fun c =>
      decide (c.age ≠ 0 ∧
        chebNat (c.x_pos, c.y_pos) (l.x_pos + (nbOffset i).1, l.y_pos + (nbOffset i).2) = 1) &&
      !decide (c.x_pos = l.x_pos ∧ c.y_pos = l.y_pos)) =
      (allCells w.map).countP (fun n =>
        (decide (chebNat (n.x_pos - l.x_pos, n.y_pos - l.y_pos) (nbOffset i) = 1) &&
          (!decide (l.x_pos = n.x_pos ∧ l.y_pos = n.y_pos) && !decide (n.age = 0))) &&
        decide (satSub l.x_pos 2 ≤ n.x_pos ∧ n.x_pos ≤ satAdd l.x_pos 2 ∧
          satSub l.y_pos 2 ≤ n.y_pos ∧ n.y_pos ≤ satAdd l.y_pos 2)) := by
    apply List.countP_congr
    intro c hc
    obtain ⟨hcx, hcy⟩ := hbounds c hc
    unfold InRange I64_MIN I64_MAX at hcx hcy hpx hpy
    simp only [Bool.and_eq_true, Bool.not_eq_true', decide_eq_true_eq,
      decide_eq_false_iff_not, chebNat, satAdd, satSub, clampI64, I64_MIN, I64_MAX]
    omega
  rw [hself, hother]

theorem mem_allCells_add_life {w : World} {l c : Life}
    (h : c ∈ allCells (w.add_life l).map) : c ∈ allCells w.map ∨ c = l := by
  unfold World.add_life at h
  rcases hg : btGet w.map l.x_pos with _ | ym
  · rw [hg] at h
    rw [mem_allCells] at h
    obtain ⟨xe, hxe, ye, hye, rfl⟩ := h
    rcases mem_btInsert hxe with hxe | hxe
    · exact Or.inl (mem_allCells.mpr ⟨xe, hxe, ye, hye, rfl⟩)
    · subst hxe
      simp only [List.mem_singleton] at hye
      rw [hye]
      exact Or.inr rfl
  · rcases hc : btContains ym l.y_pos with _ | _
    · rw [hg] at h
      simp only [hc, Bool.false_eq_true, if_false] at h
      rw [mem_allCells] at h
      obtain ⟨xe, hxe, ye, hye, rfl⟩ := h
      rcases mem_btInsert hxe with hxe | hxe
      · exact Or.inl (mem_allCells.mpr ⟨xe, hxe, ye, hye, rfl⟩)
      · subst hxe
        rcases mem_btInsert hye with hye | hye
        · exact Or.inl (mem_allCells.mpr ⟨(l.x_pos, ym), btGet_mem hg, ye, hye, rfl⟩)
        · rw [hye]
          exact Or.inr rfl
    · rw [hg] at h
      simp only [hc, if_true] at h
      exact Or.inl h

theorem mem_allCells_remove_life {w : World} {l c : Life}
    (h : c ∈ allCells (w.remove_life l).map) : c ∈ allCells w.map := by
  unfold World.remove_life at h
  rcases hg : btGet w.map l.x_pos with _ | ym
  · rw [hg] at h
    exact h
  · rcases hc : btContains ym l.y_pos with _ | _
    · rw [hg] at h
      simp only [hc, Bool.false_eq_true, if_false] at h
      exact h
    · rw [hg] at h
      simp only [hc, if_true] at h
      rw [mem_allCells] at h
      obtain ⟨xe, hxe, ye, hye, rfl⟩ := h
      rcases mem_btInsert hxe with hxe | hxe
      · exact mem_allCells.mpr ⟨xe, hxe, ye, hye, rfl⟩
      · subst hxe
        exact mem_allCells.mpr ⟨(l.x_pos, ym), btGet_mem hg,
          ye, (btRemove_sublist ym l.y_pos).subset hye, rfl⟩

theorem WF_add_life {w : World} {l : Life} (hWF : WF w)
    (hx : InRange l.x_pos) (hy : InRange l.y_pos) : WF (w.add_life l) := by
  obtain ⟨hs1, hs2, hcoh, hbounds⟩ := hWF
  refine ⟨?_, ?_, ?_, ?_⟩
  · unfold World.add_life
    rcases hg : btGet w.map l.x_pos with _ | ym
    · exact btInsert_sorted _ _ hs1
    · rcases hc : btContains ym l.y_pos with _ | _
      · simp only [hc, Bool.false_eq_true, if_false]
        exact btInsert_sorted _ _ hs1
      · simp only [hc, if_true]
        exact hs1
  · intro xe hxe
    unfold World.add_life at hxe
    rcases hg : btGet w.map l.x_pos with _ | ym
    · rw [hg] at hxe
      rcases mem_btInsert hxe with hxe | hxe
      · exact hs2 xe hxe
      · rw [hxe]
        simp [keySorted]
    · rcases hc : btContains ym l.y_pos with _ | _
      · rw [hg] at hxe
        simp only [hc, Bool.false_eq_true, if_false] at hxe
        rcases mem_btInsert hxe with hxe | hxe
        · exact hs2 xe hxe
        · rw [hxe]
          exact btInsert_sorted _ _ (hs2 (l.x_pos, ym) (btGet_mem hg))
      · rw [hg] at hxe
        simp only [hc, if_true] at hxe
        exact hs2 xe hxe
  · intro xe hxe ye hye
    unfold World.add_life at hxe
    rcases hg : btGet w.map l.x_pos with _ | ym
    · rw [hg] at hxe
      rcases mem_btInsert hxe with hxe | hxe
      · exact hcoh xe hxe ye hye
      · subst hxe
        simp only [List.mem_singleton] at hye
        rw [hye]
        exact ⟨rfl, rfl⟩
    · rcases hc : btContains ym l.y_pos with _ | _
      · rw [hg] at hxe
        simp only [hc, Bool.false_eq_true, if_false] at hxe
        rcases mem_btInsert hxe with hxe | hxe
        · exact hcoh xe hxe ye hye
        · subst hxe
          rcases mem_btInsert hye with hye | hye
          · exact hcoh (l.x_pos, ym) (btGet_mem hg) ye hye
          · rw [hye]
            exact ⟨rfl, rfl⟩
      · rw [hg] at hxe
        simp only [hc, if_true] at hxe
        exact hcoh xe hxe ye hye
  · intro c hc
    rcases mem_allCells_add_life hc with h | h
    · exact hbounds c h
    · rw [h]
      exact ⟨hx, hy⟩

theorem WF_remove_life {w : World} (l : Life) (hWF : WF w) : WF (w.remove_life l) := by
  obtain ⟨hs1, hs2, hcoh, hbounds⟩ := hWF
  refine ⟨?_, ?_, ?_, fun c hc => hbounds c (mem_allCells_remove_life hc)⟩
  · unfold World.remove_life
    rcases hg : btGet w.map l.x_pos with _ | ym
    · exact hs1
    · rcases hc : btContains ym l.y_pos with _ | _
      · simp only [hc, Bool.false_eq_true, if_false]
        exact hs1
      · simp only [hc, if_true]
        exact btInsert_sorted _ _ hs1
  · intro xe hxe
    unfold World.remove_life at hxe
    rcases hg : btGet w.map l.x_pos with _ | ym
    · rw [hg] at hxe
      exact hs2 xe hxe
    · rcases hc : btContains ym l.y_pos with _ | _
      · rw [hg] at hxe
        simp only [hc, Bool.false_eq_true, if_false] at hxe
        exact hs2 xe hxe
      · rw [hg] at hxe
        simp only [hc, if_true] at hxe
        rcases mem_btInsert hxe with hxe | hxe
        · exact hs2 xe hxe
        · rw [hxe]
          exact btRemove_sorted _ (hs2 (l.x_pos, ym) (btGet_mem hg))
  · intro xe hxe ye hye
    unfold World.remove_life at hxe
    rcases hg : btGet w.map l.x_pos with _ | ym
    · rw [hg] at hxe
      exact hcoh xe hxe ye hye
    · rcases hc : btContains ym l.y_pos with _ | _
      · rw [hg] at hxe
        simp only [hc, Bool.false_eq_true, if_false] at hxe
        exact hcoh xe hxe ye hye
      · rw [hg] at hxe
        simp only [hc, if_true] at hxe
        rcases mem_btInsert hxe with hxe | hxe
        · exact hcoh xe hxe ye hye
        · subst hxe
          exact hcoh (l.x_pos, ym) (btGet_mem hg) ye
            ((btRemove_sublist ym l.y_pos).subset hye)

theorem allCells_agePass (m : List (Int × List (Int × Life))) :
    allCells (agePass m) = (allCells m).map Life.tick := by
  unfold allCells agePass
  induction m with
  | nil => rfl
  | cons xe rest ih =>
    rw [List.map_cons, List.flatMap_cons, List.flatMap_cons, List.map_append, ih,
      List.map_map, List.map_map]
    rfl

theorem WF_agePass {w : World} (g : Nat) (hWF : WF w) :
    WF (World.mk (agePass w.map) g) := by
  obtain ⟨hs1, hs2, hcoh, hbounds⟩ := hWF
  refine ⟨?_, ?_, ?_, ?_⟩
  · unfold agePass keySorted at *
    rw [List.pairwise_map]
    exact hs1
  · intro xe hxe
    unfold agePass at hxe
    obtain ⟨xe0, hxe0, rfl⟩ := List.mem_map.mp hxe
    unfold keySorted
    rw [List.pairwise_map]
    exact hs2 xe0 hxe0
  · intro xe hxe ye hye
    unfold agePass at hxe
    obtain ⟨xe0, hxe0, rfl⟩ := List.mem_map.mp hxe
    obtain ⟨ye0, hye0, rfl⟩ := List.mem_map.mp hye
    obtain ⟨h1, h2⟩ := hcoh xe0 hxe0 ye0 hye0
    exact ⟨h1, h2⟩
  · intro c hc
    rw [allCells_agePass] at hc
    obtain ⟨c0, hc0, rfl⟩ := List.mem_map.mp hc
    exact hbounds c0 hc0

theorem WF_foldl_remove (ks : List Life) {w : World} (hWF : WF w) :
    WF (ks.foldl (fun acc l => acc.remove_life l) w) := by
  induction ks generalizing w with
  | nil => exact hWF
  | cons k rest ih => exact ih (WF_remove_life k hWF)

theorem getCell_foldl_remove (ks : List Life) (w : World) (x y : Int) (hWF : WF w) :
    (ks.foldl (fun acc l => acc.remove_life l) w).getCell x y =
      if ∃ k ∈ ks, k.x_pos = x ∧ k.y_pos = y then none else w.getCell x y := by
  induction ks generalizing w with
  | nil => simp
  | cons k rest ih =>
    rw [List.foldl_cons, ih (w.remove_life k) (WF_remove_life k hWF),
      getCell_remove_life w k x y hWF.2.1]
    by_cases hrest : ∃ k' ∈ rest, k'.x_pos = x ∧ k'.y_pos = y
    · rw [if_pos hrest]
      obtain ⟨k', hk', hkk⟩ := hrest
      rw [if_pos ⟨k', List.mem_cons_of_mem _ hk', hkk⟩]
    · rw [if_neg hrest]
      by_cases hk : k.x_pos = x ∧ k.y_pos = y
      · rw [if_pos hk, if_pos ⟨k, List.mem_cons_self _ _, hk⟩]
      · rw [if_neg hk, if_neg ?_]
        rintro ⟨k', hk', hkk⟩
        rcases List.mem_cons.mp hk' with h | h
        · exact hk (h ▸ hkk)
        · exact hrest ⟨k', h, hkk⟩

theorem WF_foldl_add (bs : List (Int × Int)) {w : World} (hWF : WF w)
    (hbs : ∀ b ∈ bs, InRange b.1 ∧ InRange b.2) :
    WF (bs.foldl (fun acc c => acc.add_life (Life.new c.1 c.2)) w) := by
  induction bs generalizing w with
  | nil => exact hWF
  | cons b rest ih =>
    exact ih (WF_add_life hWF (hbs b (List.mem_cons_self _ _)).1
      (hbs b (List.mem_cons_self _ _)).2) fun e he => hbs e (List.mem_cons_of_mem _ he)

theorem getCell_foldl_add (bs : List (Int × Int)) (w : World) (x y : Int) :
    (bs.foldl (fun acc c => acc.add_life (Life.new c.1 c.2)) w).getCell x y =
      if (x, y) ∈ bs then some ((w.getCell x y).getD (Life.new x y))
      else w.getCell x y := by
  induction bs generalizing w with
  | nil => simp
  | cons b rest ih =>
    rw [List.foldl_cons, ih]
    by_cases hb : b = (x, y)
    · obtain ⟨hb1, hb2⟩ : b.1 = x ∧ b.2 = y := by rw [hb]; exact ⟨rfl, rfl⟩
      rw [hb1, hb2]
      have hself : (w.add_life (Life.new x y)).getCell x y =
          some ((w.getCell x y).getD (Life.new x y)) := getCell_add_life_self w (Life.new x y)
      rw [hself, if_pos (List.mem_cons.mpr (Or.inl hb.symm))]
      by_cases hrest : (x, y) ∈ rest
      · rw [if_pos hrest]
        rfl
      · rw [if_neg hrest]
    · have hne : ¬ ((Life.new b.1 b.2).x_pos = x ∧ (Life.new b.1 b.2).y_pos = y) := by
        intro hh
        exact hb (Prod.ext_iff.mpr ⟨hh.1, hh.2⟩)
      rw [getCell_add_life_other w _ x y hne]
      by_cases hrest : (x, y) ∈ rest
      · rw [if_pos hrest, if_pos (List.mem_cons_of_mem _ hrest)]
      · rw [if_neg hrest, if_neg ?_]
        intro hmem
        rcases List.mem_cons.mp hmem with h | h
        · exact hb h.symm
        · exact hrest h

theorem surveyBirthSet_bounds {w : World} (hWF : WF w) {p : Int × Int}
    (hp : p ∈ surveyBirthSet w) : InRange p.1 ∧ InRange p.2 := by
  rw [mem_surveyBirthSet] at hp
  obtain ⟨l, hl, _, i, hi, _, hcalc⟩ := hp
  obtain ⟨hlx, hly⟩ := hWF.2.2.2 l hl
  rw [calc_coords_eq l hi hlx hly] at hcalc
  simp only [Option.some.injEq] at hcalc
  rw [← hcalc]
  exact ⟨clampI64_mem _, clampI64_mem _⟩

theorem tick_eq_phases (w : World) : w.tick = agingPhase (birthPhase w (killPhase w)) := rfl

theorem WF_tick {w : World} (hWF : WF w) : WF w.tick := by
  rw [tick_eq_phases]
  have h1 : WF (killPhase w) := WF_foldl_remove _ hWF
  have h2 : WF (birthPhase w (killPhase w)) :=
    WF_foldl_add _ h1 fun b hb => surveyBirthSet_bounds hWF hb
  exact WF_agePass _ h2

theorem WF_initAges {w : World} (hWF : WF w) : WF w.initAges := WF_agePass _ hWF

/-! ### Claim theorems -/

/-- C8: `add_life` at an occupied position leaves the world completely
unchanged (first-writer-wins, no error), so adding twice at the same
coordinates keeps exactly one cell there, the one from the first insertion:
the first conjunct is the no-op on collision, the second is idempotence of
the double add, and the third shows the surviving cell is the first one. -/
theorem claim_C8 (w : World) (l l' : Life)
    (hpos : l'.x_pos = l.x_pos ∧ l'.y_pos = l.y_pos) :
    (∀ c : Life, w.getCell l.x_pos l.y_pos = some c → w.add_life l = w) ∧
    (w.add_life l).add_life l' = w.add_life l ∧
    (w.getCell l.x_pos l.y_pos = none →
      ((w.add_life l).add_life l').getCell l.x_pos l.y_pos = some l) := by
  have hself := getCell_add_life_self w l
  have hpresent : (w.add_life l).getCell l'.x_pos l'.y_pos =
      some ((w.getCell l.x_pos l.y_pos).getD l) := by
    rw [hpos.1, hpos.2]
    exact hself
  constructor
  · exact fun c hc => add_life_of_present hc
  constructor
  · exact add_life_of_present hpresent
  · intro hnone
    rw [add_life_of_present hpresent, hself, hnone]
    rfl

/-- Witness for C8 at a concrete input: the empty world, a first insertion at
the origin and a colliding second insertion with a different age. -/
theorem claim_C8_witness :
    ((World.mk [] 0).add_life (Life.new 0 0)).add_life (Life.mk 0 0 5) =
      (World.mk [] 0).add_life (Life.new 0 0) :=
  (claim_C8 (World.mk [] 0) (Life.new 0 0) (Life.mk 0 0 5) ⟨rfl, rfl⟩).2.1

/-- C6: one `tick` is exactly the composition of the three phases, each
computed from the state as it stood at the start of the tick: the kill list
and the birth set are functions of the start snapshot `w` alone (they are
applied only afterwards, so no survey read observes a same-tick mutation),
every killed cell is a cell of the start snapshot, and every birth position
is nominated by a surveyed (age nonzero) cell of the start snapshot. -/
theorem claim_C6 (w : World) :
    w.tick = agingPhase (birthPhase w (killPhase w)) ∧
    killPhase w = (surveyKill w).foldl (fun acc l => acc.remove_life l) w ∧
    birthPhase w (killPhase w) =
      (surveyBirthSet w).foldl (fun acc c => acc.add_life (Life.new c.1 c.2)) (killPhase w) ∧
    (∀ l ∈ surveyKill w, l ∈ allCells w.map) ∧
    (∀ p ∈ surveyBirthSet w, ∃ l ∈ allCells w.map, l.age ≠ 0 ∧ p ∈ birthCandidates w l) := by
  refine ⟨rfl, rfl, rfl, ?_, ?_⟩
  · intro l hl
    exact (mem_surveyKill.mp hl).1
  · intro p hp
    obtain ⟨l, hl, hage, i, hi, h3, hcalc⟩ := mem_surveyBirthSet.mp hp
    refine ⟨l, hl, hage, ?_⟩
    unfold birthCandidates
    rw [List.mem_filterMap]
    exact ⟨i, by simpa using hi, by rw [if_pos h3]; exact hcalc⟩

/-- C2: in a grid where every cell has age at least 1, a stored cell is
scheduled for removal by the tick's survey exactly when its count of other
live cells within Chebyshev distance 1 is neither 2 nor 3; a scheduled cell
really is deleted from the grid by the removal phase; and in particular a
cell with 4 or more live neighbors is always scheduled for removal. -/
theorem claim_C2 (w : World) (l : Life) (hWF : WF w) (hAll : AllAlive w)
    (hl : l ∈ allCells w.map) :
    (l ∈ surveyKill w ↔ ¬ (specCloseCount w l = 2 ∨ specCloseCount w l = 3)) ∧
    (l ∈ surveyKill w → (killPhase w).getCell l.x_pos l.y_pos = none) ∧
    (4 ≤ specCloseCount w l → l ∈ surveyKill w) := by
  have hage := hAll l hl
  have hcc := closeNeighborCount_eq w l hWF hl
  refine ⟨?_, ?_, ?_⟩
  · rw [mem_surveyKill, hcc]
    tauto
  · intro hkill
    unfold killPhase
    rw [getCell_foldl_remove _ _ _ _ hWF, if_pos ⟨l, hkill, rfl, rfl⟩]
  · intro h4
    rw [mem_surveyKill, hcc]
    exact ⟨hl, hage, by omega⟩

/-- Witness for C2 at a concrete input: the end cell of the blinker has one
live neighbor, so it is scheduled for removal and deleted. -/
theorem claim_C2_witness :
    (⟨0, 0, 1⟩ : Life) ∈ surveyKill blinkerW ∧
    (killPhase blinkerW).getCell 0 0 = none ∧
    specCloseCount blinkerW ⟨0, 0, 1⟩ = 1 := by
  have h := claim_C2 blinkerW ⟨0, 0, 1⟩ (by decide) (by decide) (by decide)
  have hk : (⟨0, 0, 1⟩ : Life) ∈ surveyKill blinkerW := h.1.mpr (by decide)
  exact ⟨hk, h.2.1 hk, by decide⟩

/-- C4: the horizontal blinker at `(0,0), (1,0), (2,0)` (all ages 1, the
state right after `initialize`) becomes the vertical triple
`(1,-1), (1,0), (1,1)` after one tick and returns to the horizontal triple
after a second tick. -/
theorem claim_C4 :
    cellCoords blinkerW = [(0, 0), (1, 0), (2, 0)] ∧
    cellCoords blinkerW.tick = [(1, -1), (1, 0), (1, 1)] ∧
    cellCoords blinkerW.tick.tick = [(0, 0), (1, 0), (2, 0)] := by
  decide

/-- C7 as stated is false: `spatial_query` is not total over its whole
argument domain.  On a world holding one cell, querying with
`start_x = 1 > 0 = end_x` (an empty range, which the claim says must return
an empty sequence) makes the underlying `BTreeMap::range` call panic. -/
theorem claim_C7_counterexample :
    originW.spatial_query_panics 1 0 0 0 = true := by decide

/-- C7 amended: panic on reversed bounds aside, the range query is exact.
For every well-formed world and bounds that form a valid range on each axis
(`start_x ≤ end_x` and `end_y ≤ start_y`, the code's argument convention),
no `BTreeMap::range` call panics, the result is exactly the stored cells
whose coordinates lie in the closed rectangle
`[start_x, end_x] x [end_y, start_y]`, and in particular the result is empty
when no live cell lies in the rectangle. -/
theorem claim_C7 (w : World) (sx sy ex ey : Int) (hWF : WF w)
    (hx : sx ≤ ex) (hy : ey ≤ sy) :
    w.spatial_query_panics sx sy ex ey = false ∧
    (w.spatial_query sx sy ex ey = (allCells w.map).filter fun l =>
      decide (sx ≤ l.x_pos ∧ l.x_pos ≤ ex ∧ ey ≤ l.y_pos ∧ l.y_pos ≤ sy)) ∧
    ((∀ l ∈ allCells w.map,
        ¬ (sx ≤ l.x_pos ∧ l.x_pos ≤ ex ∧ ey ≤ l.y_pos ∧ l.y_pos ≤ sy)) →
      w.spatial_query sx sy ex ey = []) := by
  have hcoh := hWF.2.2.1
  obtain ⟨m, g⟩ := w
  have h1 : btRangePanics sx ex = false := by
    unfold btRangePanics
    simpa using (by omega : ¬ ex < sx)
  have h2 : btRangePanics ey sy = false := by
    unfold btRangePanics
    simpa using (by omega : ¬ sy < ey)
  refine ⟨?_, ?_, ?_⟩
  · unfold World.spatial_query_panics
    rw [h1, h2]
    simp
  · exact spatial_query_eq_filter m g sx sy ex ey hcoh
  · intro hnone
    rw [spatial_query_eq_filter m g sx sy ex ey hcoh, List.filter_eq_nil_iff]
    intro a ha
    simpa using hnone a ha

/-- Witness for C7 at a concrete input: a valid 3x3 range around the origin
world returns exactly its one cell and does not panic. -/
theorem claim_C7_witness :
    originW.spatial_query_panics (-1) 1 1 (-1) = false ∧
    originW.spatial_query (-1) 1 1 (-1) = [Life.mk 0 0 1] := by
  have h := claim_C7 originW (-1) 1 1 (-1) (by decide) (by decide) (by decide)
  refine ⟨h.1, ?_⟩
  rw [h.2.1]
  decide

/-- C1 as stated is false: "within Chebyshev distance 1" includes the
candidate position itself (distance 0), which the lookup table never counts.
With live cells at `(0,0)` and `(1,0)` (both age 1), the center `(0,0)`'s
directional counter 4 (position E, i.e. `(1,0)`) ends at 1, but two live
cells lie within Chebyshev distance 1 of `(1,0)`: the center and the cell
occupying `(1,0)` itself. -/
theorem claim_C1_counterexample :
    (⟨0, 0, 1⟩ : Life).calculate_neighbor_coordinates 4 = some (1, 0) ∧
    (lifeCounters pairW ⟨0, 0, 1⟩).get 4 = 1 ∧
    specWithinOneCount pairW (1, 0) = 2 ∧
    ¬ (lifeCounters pairW ⟨0, 0, 1⟩).get 4 = specWithinOneCount pairW (1, 0) := by
  decide

/-- C1 amended: for a surveyed center (age at least 1) and a directional
position `i` whose offset coordinates stay inside the i64 range (so that
`calculate_neighbor_coordinates` does not saturate), counter `i` equals the
number of age-at-least-1 cells, the center included, at Chebyshev distance
exactly 1 from the i-th adjacent position — i.e. within distance 1 but
excluding any cell occupying the candidate position itself. -/
theorem claim_C1 (w : World) (l : Life) (i : Nat) (hi : i < 8) (hWF : WF w)
    (hl : l ∈ allCells w.map) (hage : l.age ≠ 0)
    (hpx : InRange (l.x_pos + (nbOffset i).1))
    (hpy : InRange (l.y_pos + (nbOffset i).2)) :
    l.calculate_neighbor_coordinates i =
      some (l.x_pos + (nbOffset i).1, l.y_pos + (nbOffset i).2) ∧
    (lifeCounters w l).get i =
      specExactOneCount w (l.x_pos + (nbOffset i).1, l.y_pos + (nbOffset i).2) := by
  constructor
  · rw [calc_coords_eq l hi (hWF.2.2.2 l hl).1 (hWF.2.2.2 l hl).2,
      clampI64_of_mem hpx, clampI64_of_mem hpy]
  · exact lifeCounters_get_eq w l hi hWF hl hage hpx hpy

/-- Witness for C1 at a concrete input: the blinker center's NE counter
equals the number of live cells at distance exactly 1 from `(2, 1)`. -/
theorem claim_C1_witness :
    (lifeCounters blinkerW ⟨1, 0, 1⟩).get 2 = specExactOneCount blinkerW (2, 1) ∧
    specExactOneCount blinkerW (2, 1) = 2 := by
  have h := claim_C1 blinkerW ⟨1, 0, 1⟩ 2 (by decide) (by decide) (by decide)
    (by decide) (by decide) (by decide)
  exact ⟨h.2, by decide⟩

theorem offset_index {dx dy : Int} (h : max dx.natAbs dy.natAbs = 1) :
    ∃ i, i < 8 ∧ nbOffset i = (dx, dy) := by
  have hx : dx = -1 ∨ dx = 0 ∨ dx = 1 := by omega
  have hy : dy = -1 ∨ dy = 0 ∨ dy = 1 := by omega
  rcases hx with h1 | h1 | h1 <;> rcases hy with h2 | h2 | h2 <;> subst h1 <;> subst h2
  · exact ⟨5, by omega, rfl⟩
  · exact ⟨3, by omega, rfl⟩
  · exact ⟨0, by omega, rfl⟩
  · exact ⟨6, by omega, rfl⟩
  · exact absurd h (by decide)
  · exact ⟨1, by omega, rfl⟩
  · exact ⟨7, by omega, rfl⟩
  · exact ⟨4, by omega, rfl⟩
  · exact ⟨2, by omega, rfl⟩

/-- C3 as stated is false: a cell born by `tick` already has age 1 when
`tick` returns, because the aging pass at the end of the same tick also
increments the just-born cell.  Concretely, position `(1, 1)` is empty in the
blinker, has exactly 3 live neighbors, and after one tick holds a cell of
age 1, not age 0. -/
theorem claim_C3_counterexample :
    blinkerW.getCell 1 1 = none ∧
    specExactOneCount blinkerW (1, 1) = 3 ∧
    blinkerW.tick.getCell 1 1 = some (Life.mk 1 1 1) ∧
    ¬ blinkerW.tick.getCell 1 1 = some (Life.mk 1 1 0) := by
  decide

/-- C3 amended: in a well-formed grid where every cell has age at least 1, an
empty i64 position with exactly 3 live neighbors holds, after one call to
`tick`, a newborn cell that has already been aged to age 1 by the same
tick's aging phase (it is age 0 only transiently inside the tick, between
the birth phase and the aging phase). -/
theorem claim_C3 (w : World) (p : Int × Int) (hWF : WF w) (hAll : AllAlive w)
    (hpx : InRange p.1) (hpy : InRange p.2)
    (hempty : w.getCell p.1 p.2 = none)
    (hcount : specExactOneCount w p = 3) :
    w.tick.getCell p.1 p.2 = some (Life.mk p.1 p.2 1) := by
  have hex : ∃ c ∈ allCells w.map,
      (fun c => decide (c.age ≠ 0 ∧ chebNat (c.x_pos, c.y_pos) p = 1)) c = true := by
    rw [← List.countP_pos]
    unfold specExactOneCount at hcount
    omega
  obtain ⟨c, hc, hcp⟩ := hex
  simp only [decide_eq_true_eq] at hcp
  obtain ⟨hcage, hccheb⟩ := hcp
  obtain ⟨hcx, hcy⟩ := hWF.2.2.2 c hc
  obtain ⟨i, hi, hio⟩ := offset_index
    (show max (p.1 - c.x_pos).natAbs (p.2 - c.y_pos).natAbs = 1 by
      unfold chebNat at hccheb; omega)
  have hox : c.x_pos + (nbOffset i).1 = p.1 := by rw [hio]; ring
  have hoy : c.y_pos + (nbOffset i).2 = p.2 := by rw [hio]; ring
  have hcounter : (lifeCounters w c).get i = 3 := by
    rw [lifeCounters_get_eq w c hi hWF hc hcage (hox ▸ hpx) (hoy ▸ hpy), hox, hoy]
    exact hcount
  have hcalc : c.calculate_neighbor_coordinates i = some p := by
    rw [calc_coords_eq c hi hcx hcy, hox, hoy, clampI64_of_mem hpx, clampI64_of_mem hpy]
  have hbirth : p ∈ surveyBirthSet w :=
    mem_surveyBirthSet.mpr ⟨c, hc, hcage, i, hi, hcounter, hcalc⟩
  rw [tick_eq_phases, getCell_agingPhase]
  have hkillnone : (killPhase w).getCell p.1 p.2 = none := by
    unfold killPhase
    rw [getCell_foldl_remove _ _ _ _ hWF]
    split_ifs
    · rfl
    · exact hempty
  have hafterbirth : (birthPhase w (killPhase w)).getCell p.1 p.2 =
      some (Life.new p.1 p.2) := by
    unfold birthPhase
    rw [getCell_foldl_add, if_pos hbirth, hkillnone]
    rfl
  rw [hafterbirth]
  rfl

/-- Witness for C3 at a concrete input: the blinker gives birth at `(1, 1)`,
and the newborn has age 1 right after the tick. -/
theorem claim_C3_witness :
    blinkerW.tick.getCell 1 1 = some (Life.mk 1 1 1) :=
  claim_C3 blinkerW (1, 1) (by decide) (by decide) (by decide) (by decide)
    (by decide) (by decide)

theorem WF_empty : WF (World.mk [] 0) := by
  refine ⟨?_, ?_, ?_, ?_⟩ <;> simp [keySorted, allCells]

theorem refReachable_WF {w : World} (h : RefReachable w) : WF w := by
  induction h with
  | seeded seeds hs => exact WF_initAges (WF_foldl_add seeds WF_empty hs)
  | tick _ ih => exact WF_tick ih

/-- C10: every world reachable from the empty world through `add_life`,
`remove_life`, `initialize` and `tick` is well-formed: the cell stored under
outer key `x` and inner key `y` has `x_pos = x` and `y_pos = y`, at most one
cell exists per coordinate pair, and every cell reported by the range query
is a stored cell whose reported coordinates are its true stored position. -/
theorem claim_C10 (w : World) (hw : Reachable w) :
    WF w ∧
    (∀ x y : Int, ∀ c : Life, w.getCell x y = some c → c.x_pos = x ∧ c.y_pos = y) ∧
    (∀ x y : Int,
      (allCells w.map).countP (fun c => decide (c.x_pos = x ∧ c.y_pos = y)) ≤ 1) ∧
    (∀ sx sy ex ey : Int, ∀ l ∈ w.spatial_query sx sy ex ey,
      l ∈ allCells w.map ∧ w.getCell l.x_pos l.y_pos = some l) := by
  have hWF : WF w := by
    induction hw with
    | empty => exact WF_empty
    | add l _ hx hy ih => exact WF_add_life ih hx hy
    | remove l _ ih => exact WF_remove_life l ih
    | init _ ih => exact WF_initAges ih
    | tick _ ih => exact WF_tick ih
  obtain ⟨hs1, hs2, hcoh, hbounds⟩ := hWF
  refine ⟨⟨hs1, hs2, hcoh, hbounds⟩, ?_, ?_, ?_⟩
  · exact fun x y c h => getCell_coords hcoh h
  · intro x y
    have h := countP_pos_getCell w.age x y w.map hs1 hs2 hcoh
    rw [h]
    split_ifs <;> omega
  · intro sx sy ex ey l hl
    have hmem : l ∈ allCells w.map := by
      obtain ⟨m, g⟩ := w
      rw [spatial_query_eq_filter m g sx sy ex ey hcoh] at hl
      exact List.mem_of_mem_filter hl
    exact ⟨hmem, getCell_of_mem_allCells hs1 hs2 hcoh hmem⟩

/-- Witness for C10: the blinker world is reachable, hence well-formed. -/
theorem claim_C10_witness : WF blinkerW :=
  (claim_C10 blinkerW (Reachable.init (Reachable.add (Life.new 2 0)
    (Reachable.add (Life.new 1 0) (Reachable.add (Life.new 0 0) Reachable.empty
      (by decide) (by decide)) (by decide) (by decide)) (by decide) (by decide)))).1

theorem lifeCounters_get_eq_offsets (w : World) (l : Life) {i : Nat} (hi : i < 8)
    (hWF : WF w) (hl : l ∈ allCells w.map) :
    (lifeCounters w l).get i = 1 + (allCells w.map).countP fun n =>
      decide (n.age ≠ 0 ∧ ¬ (n.x_pos = l.x_pos ∧ n.y_pos = l.y_pos) ∧
        chebNat (n.x_pos - l.x_pos, n.y_pos - l.y_pos) (nbOffset i) = 1) := by
  obtain ⟨hs1, hs2, hcoh, hbounds⟩ := hWF
  obtain ⟨ho1, ho2, ho3, ho4, ho5⟩ := nbOffset_facts hi
  unfold lifeCounters
  rw [surveyNeighbors_eq_filter w hcoh l]
  have hC : ∀ n ∈ ((allCells w.map).filter fun n =>
        decide (satSub l.x_pos 2 ≤ n.x_pos ∧ n.x_pos ≤ satAdd l.x_pos 2 ∧
          satSub l.y_pos 2 ≤ n.y_pos ∧ n.y_pos ≤ satAdd l.y_pos 2)).filter (fun n =>
        !decide (l.x_pos = n.x_pos ∧ l.y_pos = n.y_pos) && !decide (n.age = 0)),
      ¬ (n.x_pos = l.x_pos ∧ n.y_pos = l.y_pos) := by
    intro n hn
    rw [List.mem_filter] at hn
    have hskip := hn.2
    simp only [Bool.and_eq_true, Bool.not_eq_true', decide_eq_false_iff_not] at hskip
    exact fun hh => hskip.1 ⟨hh.1.symm, hh.2.symm⟩
  rw [foldl_update_get l _ Counters.ones i hi hC, Counters.ones_get hi,
    List.countP_filter, List.countP_filter]
  congr 1
  apply List.countP_congr
  intro c hc
  obtain ⟨hcx, hcy⟩ := hbounds c hc
  obtain ⟨hlx, hly⟩ := hbounds l hl
  unfold InRange I64_MIN I64_MAX at hcx hcy hlx hly
  simp only [Bool.and_eq_true, Bool.not_eq_true', decide_eq_true_eq,
    decide_eq_false_iff_not, chebNat, satAdd, satSub, clampI64, I64_MIN, I64_MAX]
  omega

theorem foldl_add_occupied (bs : List (Int × Int)) (w : World)
    (h : ∀ b ∈ bs, ∃ c : Life, w.getCell b.1 b.2 = some c) :
    bs.foldl (fun acc c => acc.add_life (Life.new c.1 c.2)) w = w := by
  induction bs with
  | nil => rfl
  | cons b rest ih =>
    rw [List.foldl_cons]
    obtain ⟨c, hc⟩ := h b (List.mem_cons_self _ _)
    have hpres : w.getCell (Life.new b.1 b.2).x_pos (Life.new b.1 b.2).y_pos = some c := hc
    rw [add_life_of_present hpres]
    exact ih fun e he => h e (List.mem_cons_of_mem _ he)

theorem cellCoords_agingPhase (w : World) : cellCoords (agingPhase w) = cellCoords w := by
  unfold cellCoords agingPhase
  show (allCells (agePass w.map)).map _ = _
  rw [allCells_agePass, List.map_map]
  rfl

theorem WF_blockWorld (a b : Int) (n1 n2 n3 n4 g : Nat)
    (ha1 : InRange a) (ha2 : InRange (a + 1)) (hb1 : InRange b) (hb2 : InRange (b + 1)) :
    WF (blockWorld a b n1 n2 n3 n4 g) := by
  refine ⟨?_, ?_, ?_, ?_⟩
  · unfold blockWorld keySorted
    simp only [List.pairwise_cons, List.mem_singleton, List.not_mem_nil, List.Pairwise.nil,
      forall_eq, IsEmpty.forall_iff, implies_true, and_true]
    omega
  · intro xe hxe
    unfold blockWorld at hxe
    simp only [List.mem_cons, List.not_mem_nil, or_false] at hxe
    rcases hxe with rfl | rfl <;>
      (unfold keySorted
       simp only [List.pairwise_cons, List.mem_singleton, List.not_mem_nil, List.Pairwise.nil,
         forall_eq, IsEmpty.forall_iff, implies_true, and_true]
       omega)
  · intro xe hxe ye hye
    unfold blockWorld at hxe
    simp only [List.mem_cons, List.not_mem_nil, or_false] at hxe
    rcases hxe with rfl | rfl <;>
      (simp only [List.mem_cons, List.not_mem_nil, or_false] at hye
       rcases hye with rfl | rfl <;> exact ⟨rfl, rfl⟩)
  · intro c hc
    unfold blockWorld at hc
    simp only [allCells, List.flatMap_cons, List.flatMap_nil, List.map_cons, List.map_nil,
      List.append_nil, List.cons_append, List.nil_append, List.mem_cons,
      List.not_mem_nil, or_false] at hc
    rcases hc with rfl | rfl | rfl | rfl
    · exact ⟨ha1, hb1⟩
    · exact ⟨ha1, hb2⟩
    · exact ⟨ha2, hb1⟩
    · exact ⟨ha2, hb2⟩

set_option maxHeartbeats 8000000 in
/-- One `tick` of a 2x2 block of four live cells (all ages at least 1, no
other cells on the grid) is exactly the same block with every age stepped by
the wrapping aging pass and the generation counter stepped likewise.  No cell
is scheduled for removal (every cell has exactly 3 close neighbors), and
every birth candidate the counters nominate is one of the four occupied block
positions, so every `add_life` of the birth phase is a no-op. -/
theorem block_tick_eq (a b : Int) (n1 n2 n3 n4 g : Nat)
    (ha1 : InRange a) (ha2 : InRange (a + 1)) (hb1 : InRange b) (hb2 : InRange (b + 1))
    (h1 : n1 ≠ 0) (h2 : n2 ≠ 0) (h3 : n3 ≠ 0) (h4 : n4 ≠ 0) :
    (blockWorld a b n1 n2 n3 n4 g).tick =
      blockWorld a b ((n1 + 1) % 4294967296) ((n2 + 1) % 4294967296)
        ((n3 + 1) % 4294967296) ((n4 + 1) % 4294967296) ((g + 1) % 4294967296) := by
  have hWF : WF (blockWorld a b n1 n2 n3 n4 g) :=
    WF_blockWorld a b n1 n2 n3 n4 g ha1 ha2 hb1 hb2
  have hcells : allCells (blockWorld a b n1 n2 n3 n4 g).map =
      [⟨a, b, n1⟩, ⟨a, b + 1, n2⟩, ⟨a + 1, b, n3⟩, ⟨a + 1, b + 1, n4⟩] := rfl
  have hga : ¬ (a + 1 = a) := by omega
  have hgb : ¬ (b + 1 = b) := by omega
  have hg1 : (blockWorld a b n1 n2 n3 n4 g).getCell a b = some ⟨a, b, n1⟩ := by
    simp [blockWorld, World.getCell, btGet]
  have hg2 : (blockWorld a b n1 n2 n3 n4 g).getCell a (b + 1) = some ⟨a, b + 1, n2⟩ := by
    simp [blockWorld, World.getCell, btGet, hgb]
  have hg3 : (blockWorld a b n1 n2 n3 n4 g).getCell (a + 1) b = some ⟨a + 1, b, n3⟩ := by
    simp [blockWorld, World.getCell, btGet, hga]
  have hg4 : (blockWorld a b n1 n2 n3 n4 g).getCell (a + 1) (b + 1) =
      some ⟨a + 1, b + 1, n4⟩ := by
    simp [blockWorld, World.getCell, btGet, hga, hgb]
  have hcc : ∀ l ∈ allCells (blockWorld a b n1 n2 n3 n4 g).map,
      closeNeighborCount (blockWorld a b n1 n2 n3 n4 g) l = 3 := by
    intro l hl
    rw [closeNeighborCount_eq _ l hWF hl]
    have hl4 : l = (⟨a, b, n1⟩ : Life) ∨ l = ⟨a, b + 1, n2⟩ ∨ l = ⟨a + 1, b, n3⟩ ∨
        l = ⟨a + 1, b + 1, n4⟩ := by
      rw [hcells] at hl
      simpa using hl
    unfold specCloseCount
    rw [hcells]
    rcases hl4 with rfl | rfl | rfl | rfl <;>
      simp [List.countP_cons, List.countP_nil, chebNat] <;> (try split_ifs) <;> omega
  have hkill : surveyKill (blockWorld a b n1 n2 n3 n4 g) = [] := by
    unfold surveyKill
    rw [List.filter_eq_nil_iff]
    intro l hl
    have hl3 := hcc l hl
    simp [hl3]
  have hocc : ∀ p ∈ surveyBirthSet (blockWorld a b n1 n2 n3 n4 g),
      ∃ c : Life, (blockWorld a b n1 n2 n3 n4 g).getCell p.1 p.2 = some c := by
    intro p hp
    obtain ⟨c, hc, hage, i, hi, hc3, hcalc⟩ := mem_surveyBirthSet.mp hp
    obtain ⟨ho1, ho2, ho3, ho4, ho5⟩ := nbOffset_facts hi
    rw [lifeCounters_get_eq_offsets _ c hi hWF hc] at hc3
    have hc4 : c = (⟨a, b, n1⟩ : Life) ∨ c = ⟨a, b + 1, n2⟩ ∨ c = ⟨a + 1, b, n3⟩ ∨
        c = ⟨a + 1, b + 1, n4⟩ := by
      rw [hcells] at hc
      simpa using hc
    rw [hcells] at hc3
    rcases hc4 with rfl | rfl | rfl | rfl
    · have hkey : (((nbOffset i).1 = 0) ∧ ((nbOffset i).2 = 1)) ∨
          (((nbOffset i).1 = 1) ∧ ((nbOffset i).2 = 0)) ∨
          (((nbOffset i).1 = 1) ∧ ((nbOffset i).2 = 1)) := by
        simp [List.countP_cons, List.countP_nil, chebNat] at hc3
        split_ifs at hc3 <;> omega
      rw [calc_coords_eq _ hi ha1 hb1] at hcalc
      replace hcalc : some (clampI64 (a + (nbOffset i).1),
          clampI64 (b + (nbOffset i).2)) = some p := hcalc
      rcases hkey with ⟨hk1, hk2⟩ | ⟨hk1, hk2⟩ | ⟨hk1, hk2⟩
      · refine ⟨⟨a, b + 1, n2⟩, ?_⟩
        have hpp : p.1 = a ∧ p.2 = b + 1 := by
          rw [hk1, hk2] at hcalc
          simp only [Option.some.injEq, Prod.ext_iff] at hcalc
          unfold clampI64 I64_MIN I64_MAX at hcalc
          unfold InRange I64_MIN I64_MAX at ha1 ha2 hb1 hb2
          omega
        rw [hpp.1, hpp.2]
        exact hg2
      · refine ⟨⟨a + 1, b, n3⟩, ?_⟩
        have hpp : p.1 = a + 1 ∧ p.2 = b := by
          rw [hk1, hk2] at hcalc
          simp only [Option.some.injEq, Prod.ext_iff] at hcalc
          unfold clampI64 I64_MIN I64_MAX at hcalc
          unfold InRange I64_MIN I64_MAX at ha1 ha2 hb1 hb2
          omega
        rw [hpp.1, hpp.2]
        exact hg3
      · refine ⟨⟨a + 1, b + 1, n4⟩, ?_⟩
        have hpp : p.1 = a + 1 ∧ p.2 = b + 1 := by
          rw [hk1, hk2] at hcalc
          simp only [Option.some.injEq, Prod.ext_iff] at hcalc
          unfold clampI64 I64_MIN I64_MAX at hcalc
          unfold InRange I64_MIN I64_MAX at ha1 ha2 hb1 hb2
          omega
        rw [hpp.1, hpp.2]
        exact hg4
    · have hkey : (((nbOffset i).1 = 0) ∧ ((nbOffset i).2 = -1)) ∨
          (((nbOffset i).1 = 1) ∧ ((nbOffset i).2 = -1)) ∨
          (((nbOffset i).1 = 1) ∧ ((nbOffset i).2 = 0)) := by
        simp [List.countP_cons, List.countP_nil, chebNat] at hc3
        split_ifs at hc3 <;> omega
      rw [calc_coords_eq _ hi ha1 hb2] at hcalc
      replace hcalc : some (clampI64 (a + (nbOffset i).1),
          clampI64 (b + 1 + (nbOffset i).2)) = some p := hcalc
      rcases hkey with ⟨hk1, hk2⟩ | ⟨hk1, hk2⟩ | ⟨hk1, hk2⟩
      · refine ⟨⟨a, b, n1⟩, ?_⟩
        have hpp : p.1 = a ∧ p.2 = b := by
          rw [hk1, hk2] at hcalc
          simp only [Option.some.injEq, Prod.ext_iff] at hcalc
          unfold clampI64 I64_MIN I64_MAX at hcalc
          unfold InRange I64_MIN I64_MAX at ha1 ha2 hb1 hb2
          omega
        rw [hpp.1, hpp.2]
        exact hg1
      · refine ⟨⟨a + 1, b, n3⟩, ?_⟩
        have hpp : p.1 = a + 1 ∧ p.2 = b := by
          rw [hk1, hk2] at hcalc
          simp only [Option.some.injEq, Prod.ext_iff] at hcalc
          unfold clampI64 I64_MIN I64_MAX at hcalc
          unfold InRange I64_MIN I64_MAX at ha1 ha2 hb1 hb2
          omega
        rw [hpp.1, hpp.2]
        exact hg3
      · refine ⟨⟨a + 1, b + 1, n4⟩, ?_⟩
        have hpp : p.1 = a + 1 ∧ p.2 = b + 1 := by
          rw [hk1, hk2] at hcalc
          simp only [Option.some.injEq, Prod.ext_iff] at hcalc
          unfold clampI64 I64_MIN I64_MAX at hcalc
          unfold InRange I64_MIN I64_MAX at ha1 ha2 hb1 hb2
          omega
        rw [hpp.1, hpp.2]
        exact hg4
    · have hkey : (((nbOffset i).1 = -1) ∧ ((nbOffset i).2 = 0)) ∨
          (((nbOffset i).1 = -1) ∧ ((nbOffset i).2 = 1)) ∨
          (((nbOffset i).1 = 0) ∧ ((nbOffset i).2 = 1)) := by
        simp [List.countP_cons, List.countP_nil, chebNat] at hc3
        split_ifs at hc3 <;> omega
      rw [calc_coords_eq _ hi ha2 hb1] at hcalc
      replace hcalc : some (clampI64 (a + 1 + (nbOffset i).1),
          clampI64 (b + (nbOffset i).2)) = some p := hcalc
      rcases hkey with ⟨hk1, hk2⟩ | ⟨hk1, hk2⟩ | ⟨hk1, hk2⟩
      · refine ⟨⟨a, b, n1⟩, ?_⟩
        have hpp : p.1 = a ∧ p.2 = b := by
          rw [hk1, hk2] at hcalc
          simp only [Option.some.injEq, Prod.ext_iff] at hcalc
          unfold clampI64 I64_MIN I64_MAX at hcalc
          unfold InRange I64_MIN I64_MAX at ha1 ha2 hb1 hb2
          omega
        rw [hpp.1, hpp.2]
        exact hg1
      · refine ⟨⟨a, b + 1, n2⟩, ?_⟩
        have hpp : p.1 = a ∧ p.2 = b + 1 := by
          rw [hk1, hk2] at hcalc
          simp only [Option.some.injEq, Prod.ext_iff] at hcalc
          unfold clampI64 I64_MIN I64_MAX at hcalc
          unfold InRange I64_MIN I64_MAX at ha1 ha2 hb1 hb2
          omega
        rw [hpp.1, hpp.2]
        exact hg2
      · refine ⟨⟨a + 1, b + 1, n4⟩, ?_⟩
        have hpp : p.1 = a + 1 ∧ p.2 = b + 1 := by
          rw [hk1, hk2] at hcalc
          simp only [Option.some.injEq, Prod.ext_iff] at hcalc
          unfold clampI64 I64_MIN I64_MAX at hcalc
          unfold InRange I64_MIN I64_MAX at ha1 ha2 hb1 hb2
          omega
        rw [hpp.1, hpp.2]
        exact hg4
    · have hkey : (((nbOffset i).1 = -1) ∧ ((nbOffset i).2 = -1)) ∨
          (((nbOffset i).1 = -1) ∧ ((nbOffset i).2 = 0)) ∨
          (((nbOffset i).1 = 0) ∧ ((nbOffset i).2 = -1)) := by
        simp [List.countP_cons, List.countP_nil, chebNat] at hc3
        split_ifs at hc3 <;> omega
      rw [calc_coords_eq _ hi ha2 hb2] at hcalc
      replace hcalc : some (clampI64 (a + 1 + (nbOffset i).1),
          clampI64 (b + 1 + (nbOffset i).2)) = some p := hcalc
      rcases hkey with ⟨hk1, hk2⟩ | ⟨hk1, hk2⟩ | ⟨hk1, hk2⟩
      · refine ⟨⟨a, b, n1⟩, ?_⟩
        have hpp : p.1 = a ∧ p.2 = b := by
          rw [hk1, hk2] at hcalc
          simp only [Option.some.injEq, Prod.ext_iff] at hcalc
          unfold clampI64 I64_MIN I64_MAX at hcalc
          unfold InRange I64_MIN I64_MAX at ha1 ha2 hb1 hb2
          omega
        rw [hpp.1, hpp.2]
        exact hg1
      · refine ⟨⟨a, b + 1, n2⟩, ?_⟩
        have hpp : p.1 = a ∧ p.2 = b + 1 := by
          rw [hk1, hk2] at hcalc
          simp only [Option.some.injEq, Prod.ext_iff] at hcalc
          unfold clampI64 I64_MIN I64_MAX at hcalc
          unfold InRange I64_MIN I64_MAX at ha1 ha2 hb1 hb2
          omega
        rw [hpp.1, hpp.2]
        exact hg2
      · refine ⟨⟨a + 1, b, n3⟩, ?_⟩
        have hpp : p.1 = a + 1 ∧ p.2 = b := by
          rw [hk1, hk2] at hcalc
          simp only [Option.some.injEq, Prod.ext_iff] at hcalc
          unfold clampI64 I64_MIN I64_MAX at hcalc
          unfold InRange I64_MIN I64_MAX at ha1 ha2 hb1 hb2
          omega
        rw [hpp.1, hpp.2]
        exact hg3
  rw [tick_eq_phases]
  have hkp : killPhase (blockWorld a b n1 n2 n3 n4 g) = blockWorld a b n1 n2 n3 n4 g := by
    unfold killPhase
    rw [hkill]
    rfl
  rw [hkp]
  have hbp : birthPhase (blockWorld a b n1 n2 n3 n4 g) (blockWorld a b n1 n2 n3 n4 g) =
      blockWorld a b n1 n2 n3 n4 g := foldl_add_occupied _ _ hocc
  rw [hbp]
  rfl

/-- C5: a 2x2 block of four live cells (all ages at least 1, no other cells
on the grid, the square anywhere its four coordinates fit in i64) is stable:
one `tick` leaves the live-cell set identical.  Only the ages step (by the
wrapping aging pass); the set of occupied positions does not change. -/
theorem claim_C5 (a b : Int) (n1 n2 n3 n4 g : Nat)
    (ha1 : InRange a) (ha2 : InRange (a + 1)) (hb1 : InRange b) (hb2 : InRange (b + 1))
    (h1 : n1 ≠ 0) (h2 : n2 ≠ 0) (h3 : n3 ≠ 0) (h4 : n4 ≠ 0) :
    cellCoords (blockWorld a b n1 n2 n3 n4 g).tick =
      cellCoords (blockWorld a b n1 n2 n3 n4 g) := by
  rw [block_tick_eq a b n1 n2 n3 n4 g ha1 ha2 hb1 hb2 h1 h2 h3 h4]
  rfl

/-- Witness for C5 at a concrete input: the block at `(5, 5)` with ages 1. -/
theorem claim_C5_witness :
    cellCoords (blockWorld 5 5 1 1 1 1 0).tick = cellCoords (blockWorld 5 5 1 1 1 1 0) :=
  claim_C5 5 5 1 1 1 1 0 (by decide) (by decide) (by decide) (by decide)
    (by decide) (by decide) (by decide) (by decide)

theorem allCells_initAges (w : World) :
    allCells w.initAges.map = (allCells w.map).map Life.tick :=
  allCells_agePass w.map

theorem foldl_add_cells_age (seeds : List (Int × Int)) (w : World)
    (h : ∀ c ∈ allCells w.map, c.age = 0) :
    ∀ c ∈ allCells ((seeds.foldl (fun (acc : World) s =>
        acc.add_life (Life.new s.1 s.2)) w).map), c.age = 0 := by
  induction seeds generalizing w with
  | nil => exact h
  | cons s rest ih =>
    rw [List.foldl_cons]
    apply ih
    intro c hc
    rcases mem_allCells_add_life hc with hc | rfl
    · exact h c hc
    · rfl

theorem mem_allCells_foldl_add {bs : List (Int × Int)} {w : World} {c : Life}
    (h : c ∈ allCells ((bs.foldl (fun acc s => acc.add_life (Life.new s.1 s.2)) w).map)) :
    c ∈ allCells w.map ∨ c.age = 0 := by
  induction bs generalizing w with
  | nil => exact Or.inl h
  | cons s rest ih =>
    rw [List.foldl_cons] at h
    rcases ih h with hc | hc
    · rcases mem_allCells_add_life hc with hc | rfl
      · exact Or.inl hc
      · exact Or.inr rfl
    · exact Or.inr hc

theorem mem_allCells_foldl_remove {ks : List Life} {w : World} {c : Life}
    (h : c ∈ allCells ((ks.foldl (fun acc l => acc.remove_life l) w).map)) :
    c ∈ allCells w.map := by
  induction ks generalizing w with
  | nil => exact h
  | cons k rest ih =>
    rw [List.foldl_cons] at h
    exact mem_allCells_remove_life (ih h)

/-- Every cell present after the kill and birth phases is either a cell of the
starting state or a just-born age-0 cell. -/
theorem mem_allCells_phases {w : World} {c : Life}
    (h : c ∈ allCells (birthPhase w (killPhase w)).map) :
    c ∈ allCells w.map ∨ c.age = 0 := by
  unfold birthPhase at h
  rcases mem_allCells_foldl_add h with hc | hc
  · unfold killPhase at hc
    exact Or.inl (mem_allCells_foldl_remove hc)
  · exact Or.inr hc

theorem refTrace_WF {n : Nat} {w : World} (h : RefTrace n w) : WF w := by
  induction h with
  | seeded seeds hs => exact WF_initAges (WF_foldl_add seeds WF_empty hs)
  | tick _ ih => exact WF_tick ih

/-- Ages never outrun the tick count: after `n` ticks of the reference flow
every stored age is at most `n + 1` (seeds start at 1 after `initialize`, the
wrapping increment can only lower an age further). -/
theorem refTrace_age_le {n : Nat} {w : World} (h : RefTrace n w) :
    ∀ c ∈ allCells w.map, c.age ≤ n + 1 := by
  induction h with
  | seeded seeds hs =>
    intro c hc
    rw [allCells_initAges] at hc
    obtain ⟨c0, hc0, rfl⟩ := List.mem_map.mp hc
    have h0 : c0.age = 0 :=
      foldl_add_cells_age seeds (World.mk [] 0) (by simp [allCells]) c0 hc0
    have he : (Life.tick c0).age = (c0.age + 1) % 4294967296 := rfl
    rw [he, h0]
  | @tick m w0 _ ih =>
    intro c hc
    replace hc : c ∈ (allCells (birthPhase w0 (killPhase w0)).map).map Life.tick := by
      rw [← allCells_agePass]
      exact hc
    obtain ⟨c0, hc0, rfl⟩ := List.mem_map.mp hc
    have he : (Life.tick c0).age = (c0.age + 1) % 4294967296 := rfl
    rw [he]
    rcases mem_allCells_phases hc0 with hmem | h0
    · have := ih c0 hmem
      omega
    · omega

/-- As long as fewer than `2^32` increments have hit any cell — that is, for
tick counts `n` with `n + 1 < 2^32` — no stored age has wrapped and every
stored cell has age at least 1. -/
theorem refTrace_allAlive {n : Nat} {w : World} (h : RefTrace n w)
    (hn : n + 1 < 4294967296) : AllAlive w := by
  cases h with
  | seeded seeds hs =>
    intro c hc
    rw [allCells_initAges] at hc
    obtain ⟨c0, hc0, rfl⟩ := List.mem_map.mp hc
    have h0 : c0.age = 0 :=
      foldl_add_cells_age seeds (World.mk [] 0) (by simp [allCells]) c0 hc0
    have he : (Life.tick c0).age = (c0.age + 1) % 4294967296 := rfl
    rw [he, h0]
    omega
  | @tick m w0 ht =>
    intro c hc
    replace hc : c ∈ (allCells (birthPhase w0 (killPhase w0)).map).map Life.tick := by
      rw [← allCells_agePass]
      exact hc
    obtain ⟨c0, hc0, rfl⟩ := List.mem_map.mp hc
    have he : (Life.tick c0).age = (c0.age + 1) % 4294967296 := rfl
    rw [he]
    rcases mem_allCells_phases hc0 with hmem | h0
    · have := refTrace_age_le ht c0 hmem
      omega
    · omega

theorem refReachable_iterate {w : World} (k : Nat) (h : RefReachable w) :
    RefReachable (World.tick^[k] w) := by
  induction k with
  | zero => exact h
  | succ n ih =>
    rw [Function.iterate_succ_apply']
    exact RefReachable.tick ih

/-- The stable block's trajectory in closed form: after `k < 2^32` ticks from
all-ages-1 its four ages read `(1 + k) % 2^32` and the generation counter
reads `k % 2^32`. -/
theorem block_iterate : ∀ k, k < 4294967296 →
    World.tick^[k] (blockWorld 0 0 1 1 1 1 0) =
      blockWorld 0 0 ((1 + k) % 4294967296) ((1 + k) % 4294967296)
        ((1 + k) % 4294967296) ((1 + k) % 4294967296) (k % 4294967296) := by
  intro k
  induction k with
  | zero =>
    intro _
    norm_num
  | succ n ih =>
    intro hk
    rw [Function.iterate_succ_apply', ih (by omega),
      block_tick_eq 0 0 _ _ _ _ _ (by decide) (by decide) (by decide) (by decide)
        (by omega) (by omega) (by omega) (by omega)]
    have e1 : ((1 + n) % 4294967296 + 1) % 4294967296 = (1 + (n + 1)) % 4294967296 := by
      omega
    have e2 : (n % 4294967296 + 1) % 4294967296 = (n + 1) % 4294967296 := by
      omega
    rw [e1, e2]

/-- C9 counterexample: the literal claim — every reference-flow world has all
ages at least 1, for ANY number of ticks — fails, because the `u32` age wraps.
A 2x2 block is stable (kill and birth phases never touch it), so after
`2^32 - 1` ticks each of its cells has been incremented `2^32` times
(`initialize` plus one per tick) and its stored age has wrapped to 0; that
world is reachable in the reference flow yet violates `AllAlive`, and its
next survey does execute the `age == 0` skip branches. -/
theorem claim_C9_counterexample :
    RefReachable (World.tick^[4294967295] (blockWorld 0 0 1 1 1 1 0)) ∧
      ¬ AllAlive (World.tick^[4294967295] (blockWorld 0 0 1 1 1 1 0)) := by
  constructor
  · apply refReachable_iterate
    have hseed : (([((0 : Int), (0 : Int)), (0, 1), (1, 0), (1, 1)].foldl
        (fun (w : World) c => w.add_life (Life.new c.1 c.2)) (World.mk [] 0)).initAges) =
        blockWorld 0 0 1 1 1 1 0 := rfl
    rw [← hseed]
    exact RefReachable.seeded [(0, 0), (0, 1), (1, 0), (1, 1)] (by decide)
  · rw [block_iterate 4294967295 (by norm_num)]
    decide

/-- C9 amended: at the start of every tick of the reference flow (seeds added,
one `initialize`, then `gen` ticks), as long as `gen + 1 < 2^32` — i.e. before
any cell's `u32` age can complete `2^32` wrapping increments — every stored
cell has age at least 1, because the aging pass at the end of each tick (and
`initialize` before the first one) covers cells born in that same tick and no
age has wrapped back to 0 yet.  Consequently the two `age == 0` skip branches
of the survey are dead there: the subject filter reduces to the bare survival
test, and the neighbor filter reduces to the bare self test.  Past that bound
the property fails (see the counterexample): a cell that survives `2^32 - 1`
ticks wraps to stored age 0. -/
theorem claim_C9 (gen : Nat) (w : World) (hw : RefTrace gen w)
    (hgen : gen + 1 < 4294967296) :
    AllAlive w ∧
    (surveyKill w = (allCells w.map).filter fun l =>
      !decide (closeNeighborCount w l = 2 ∨ closeNeighborCount w l = 3)) ∧
    (∀ l : Life, surveyNeighbors w l =
      (w.query_around_point l.x_pos l.y_pos).filter fun n =>
        !decide (l.x_pos = n.x_pos ∧ l.y_pos = n.y_pos)) := by
  have hAll : AllAlive w := refTrace_allAlive hw hgen
  have hWF : WF w := refTrace_WF hw
  refine ⟨hAll, ?_, ?_⟩
  · unfold surveyKill
    apply List.filter_congr
    intro l hl
    simp [hAll l hl]
  · intro l
    unfold surveyNeighbors
    apply List.filter_congr
    intro n hn
    have hnc : n ∈ allCells w.map := by
      obtain ⟨m, g⟩ := w
      unfold World.query_around_point at hn
      rw [spatial_query_eq_filter m g _ _ _ _ hWF.2.2.1] at hn
      exact List.mem_of_mem_filter hn
    simp [hAll n hnc]

/-- Witness for C9: the reference flow seeded with the blinker cells, after
`initialize` and one tick (tick count 1, far below the wrap bound). -/
theorem claim_C9_witness :
    AllAlive (([((0 : Int), (0 : Int)), (1, 0), (2, 0)].foldl
      (fun (w : World) c => w.add_life (Life.new c.1 c.2)) (World.mk [] 0)).initAges.tick) :=
  (claim_C9 1 _ (RefTrace.tick (RefTrace.seeded [(0, 0), (1, 0), (2, 0)]
    (by decide))) (by norm_num)).1

end LifeRust
